import Mathlib

/-!
Verification of the CPWord tokenization core (`cp_word.py`):
the time-grid segmenter (`_add_time_events`), compound-token assembler
(`__create_cp_token`), decoder (`tokens_to_midi`), token-types graph
(`_create_token_types_graph`) and validator (`tokens_errors`).
-/

namespace CPWord

/-- Values carried by event / token fields.  The source stores every field as a
`"Type_Value"` string; we keep the value structured and the type label as a
separate string, which avoids re-parsing strings at decode time. -/
inductive Val where
  | vNone : Val
  | vInt : Int → Val
  | vStr : String → Val
  | vDur : Nat → Nat → Nat → Val
  | vTS : Nat → Nat → Val
  | vRat : Rat → Val
deriving DecidableEq, Repr

/-- One field of a compound token: its type label and its value.  The source
represents this as a single `"Type_Value"` string built by the vocabulary. -/
structure Slot where
  ty : String
  val : Val
deriving DecidableEq, Repr

/-- A compound token: the shared time of the token (the source stores it on the
first `Family` field for sorting) and the ordered list of its fields
(slots 0-4 are Family, Bar/Position, Pitch, Velocity, Duration, followed by
the optional Program/Chord/Rest/Tempo/TimeSig slots in that order). -/
structure CPTok where
  time : Int
  slots : List Slot
deriving DecidableEq, Repr

/-- An input event, as produced by the extraction collaborator: a type tag, a
value, an absolute tick, and (for `Pitch` events) the end tick of the note in
`desc`, which is what `_add_time_events` reads from `event.desc`. -/
structure Event where
  type : String
  value : Val
  time : Int
  desc : Int
deriving DecidableEq, Repr

instance : Inhabited Event := ⟨⟨"", Val.vNone, 0, 0⟩⟩

/-- A duration / rest value as a ratio triple `(beat, pos, res)` meaning
`beat + pos/res` beats, rendered in the source as the string `"beat.pos.res"`. -/
abbrev Dur := Nat × Nat × Nat

/-- The tokenizer configuration attributes read by `cp_word.py`.
`one_token_stream`, `beat_res_max` (`max(self.config.beat_res.values())`),
`min_rest` (`self._min_rest`), the `rests` and `tempos` vocabularies and
`log_tempos` live on the base class / config object outside `src/`; they are
modelled as plain fields holding what the spec (sections 4 and 6) says they
hold. -/
structure Config where
  use_programs : Bool
  use_chords : Bool
  use_rests : Bool
  use_tempos : Bool
  use_time_signatures : Bool
  one_token_stream : Bool
  log_tempos : Bool
  beat_res_max : Nat
  min_rest : Int
  programs : List Int
  rests : List Dur
  tempos : List Rat
deriving DecidableEq, Repr

/-- Default MIDI time division (ticks per beat), `constants.TIME_DIVISION`. -/
def TIME_DIVISION : Int := 384

/-- Default tempo, `constants.TEMPO`. -/
def TEMPO : Rat := 120

/-- Default time signature, `constants.TIME_SIGNATURE` (4/4). -/
def TIME_SIGNATURE : Nat × Nat := (4, 4)

/-- The `"Type_Value"` family string of slot 0 seen as a family name:
`"Family_Metric" → "Metric"`, and the `"None"` value of special tokens such as
`"PAD_None"` reads back as `"None"`. -/
def famOfVal : Val → String
  | Val.vStr s => s
  | Val.vNone => "None"
  | _ => ""

/-- Family of a compound token (value part of slot 0); an out-of-range index
would be an `IndexError` in the source, here the empty string which matches no
family branch. -/
def famOfTok (tok : CPTok) : String :=
  match tok.slots.get? 0 with
  | some s => famOfVal s.val
  | none => ""

/-- Python `int(...)` applied to a token value string; fails (raises) on
anything that is not an integer literal. -/
def intOfVal : Val → Option Int
  | Val.vInt n => some n
  | _ => none

/-- Python `float(...)` applied to a token value string; tempo values are
numeric literals. -/
def ratOfVal : Val → Option Rat
  | Val.vRat q => some q
  | Val.vInt n => some (n : Rat)
  | _ => none

/-- `_parse_token_time_signature`: reads `"num/den"`; fails on anything else
(`ValueError` in the source). -/
def tsOfVal : Val → Option (Nat × Nat)
  | Val.vTS n d => some (n, d)
  | _ => none

/-- Duration triple of a `Duration` / `Rest` token value; fails otherwise. -/
def durOfVal : Val → Option Dur
  | Val.vDur b p r => some (b, p, r)
  | _ => none

/-- Modelled from the spec: `MIDITokenizer._compute_ticks_per_bar` is not part
of the provided source; per the glossary a bar lasts `ticks_per_bar` ticks
derived from the active time signature `(num, den)` and the time division
(ticks per quarter-note beat): `time_division * 4 * num / den`. -/
def computeTicksPerBar (ts : Nat × Nat) (timeDivision : Int) : Int :=
  Int.fdiv (timeDivision * 4 * (ts.1 : Int)) (ts.2 : Int)

/-- Modelled from the spec: `MIDITokenizer._token_duration_to_ticks` is not
part of the provided source; a duration token `(beat, pos, res)` denotes
`beat + pos/res` beats, i.e. `(beat * res + pos) * time_division / res`
ticks. -/
def tokenDurationToTicks (d : Dur) (timeDivision : Int) : Int :=
  Int.fdiv (((d.1 * d.2.2 + d.2.1 : Nat) : Int) * timeDivision) (d.2.2 : Int)

/-- One greedy step list: the rest vocabulary with the tick value of each
entry, ordered as configured (largest first). -/
def restVocabTicks (cfg : Config) (timeDivision : Int) : List (Dur × Int) :=
  cfg.rests.map (fun d => (d, tokenDurationToTicks d timeDivision))

/-- Modelled from the spec: `MIDITokenizer._ticks_to_duration_tokens` with
`rest=True` is not part of the provided source; per section 4.1a it performs a
largest-first greedy decomposition of the tick gap over the configured
rest-duration vocabulary, dropping any remainder smaller than the smallest
rest.  `fuel` bounds the recursion (every emitted rest consumes at least one
tick, so `gap.toNat` fuel suffices). -/
def greedyDecompose (vocab : List (Dur × Int)) : Nat → Int → List (Dur × Int)
  | 0, _ => []
  | fuel + 1, remaining =>
    match vocab.find? (fun p => decide (0 < p.2 ∧ p.2 ≤ remaining)) with
    | some p => p :: greedyDecompose vocab fuel (remaining - p.2)
    | none => []

/-- The rest decomposition used by the segmenter (`_ticks_to_duration_tokens`
with `rest=True`), yielding `(value, ticks)` pairs. -/
def ticksToRestTokens (cfg : Config) (timeDivision : Int) (gap : Int) :
    List (Dur × Int) :=
  greedyDecompose (restVocabTicks cfg timeDivision) gap.toNat gap

/-- Modelled from the spec: with `log_tempos` the segmenter seeds the tempo
with the configured tempo value nearest to the canonical default
(`self.tempos[np.abs(self.tempos - TEMPO).argmin()]`, first index on ties). -/
def nearestTempo (ts : List Rat) : Rat :=
  (ts.foldl
      (fun best t =>
        match best with
        | none => some t
        | some b => if |t - TEMPO| < |b - TEMPO| then some t else some b)
      none).getD TEMPO

/-- `_tweak_config_before_creating_voc`: the ordered list of compound-token
field types for the active configuration (base five plus the enabled optional
fields in Program, Chord, Rest, Tempo, TimeSig order). -/
def tokenTypesList (cfg : Config) : List String :=
  ["Family", "Position", "Pitch", "Velocity", "Duration"]
    ++ (if cfg.use_programs then ["Program"] else [])
    ++ (if cfg.use_chords then ["Chord"] else [])
    ++ (if cfg.use_rests then ["Rest"] else [])
    ++ (if cfg.use_tempos then ["Tempo"] else [])
    ++ (if cfg.use_time_signatures then ["TimeSig"] else [])

/-- `self.vocab_types_idx`: slot index of a field type; `"Bar"` shares slot 1
with `"Position"`.  A missing key is a `KeyError` in the source, `none` here. -/
def vocabTypesIdx (cfg : Config) (name : String) : Option Nat :=
  if name = "Bar" then some 1 else (tokenTypesList cfg).findIdx? (· = name)

/-- Set a slot at an optional index; the source raises `KeyError` before the
assignment when the field type is absent from `vocab_types_idx`, a situation
none of the theorems below reach (their event streams only carry fields the
configuration enables). -/
def setSlot (tok : CPTok) (i : Option Nat) (s : Slot) : CPTok :=
  match i with
  | some i => { tok with slots := tok.slots.set i s }
  | none => tok

/-- An `"Ignore_None"` slot. -/
def ignoreSlot : Slot := ⟨"Ignore", Val.vNone⟩

/-- `__create_cp_token`: builds one compound token.  All slots start as
`Ignore_None` under a `Family_Metric` head, then exactly the slots implied by
the active intent (`bar` / `pos` / `rest` / `pitch`) are filled, optional
slots being placed through `vocab_types_idx`. -/
def createCpToken (cfg : Config) (time : Int) (bar : Bool) (pos : Option Int)
    (pitch : Option Val) (vel : Option Val) (dur : Option Val)
    (chord : Option Val) (rest : Option Val) (tempo : Option Rat)
    (time_signature : Option (Nat × Nat)) (program : Option Int) : CPTok :=
  let base : List Slot :=
    [⟨"Family", Val.vStr "Metric"⟩, ignoreSlot, ignoreSlot, ignoreSlot,
      ignoreSlot]
      ++ (if cfg.use_programs then [ignoreSlot] else [])
      ++ (if cfg.use_chords then [ignoreSlot] else [])
      ++ (if cfg.use_rests then [ignoreSlot] else [])
      ++ (if cfg.use_tempos then [ignoreSlot] else [])
      ++ (if cfg.use_time_signatures then [ignoreSlot] else [])
  let tok : CPTok := ⟨time, base⟩
  if bar then
    let tok : CPTok := { tok with slots := tok.slots.set 1 ⟨"Bar", Val.vNone⟩ }
    match time_signature with
    | some ts =>
      setSlot tok (vocabTypesIdx cfg "TimeSig") ⟨"TimeSig", Val.vTS ts.1 ts.2⟩
    | none => tok
  else
    match pos with
    | some p =>
      let tok : CPTok :=
        { tok with slots := tok.slots.set 1 ⟨"Position", Val.vInt p⟩ }
      let tok : CPTok :=
        match chord with
        | some c => setSlot tok (vocabTypesIdx cfg "Chord") ⟨"Chord", c⟩
        | none => tok
      match tempo with
      | some q => setSlot tok (vocabTypesIdx cfg "Tempo") ⟨"Tempo", Val.vRat q⟩
      | none => tok
    | none =>
      match rest with
      | some r => setSlot tok (vocabTypesIdx cfg "Rest") ⟨"Rest", r⟩
      | none =>
        match pitch with
        | some pv =>
          let tok : CPTok :=
            { tok with slots := tok.slots.set 0 ⟨"Family", Val.vStr "Note"⟩ }
          let tok : CPTok :=
            { tok with slots := tok.slots.set 2 ⟨"Pitch", pv⟩ }
          let tok : CPTok :=
            { tok with
              slots := tok.slots.set 3 ⟨"Velocity", vel.getD Val.vNone⟩ }
          let tok : CPTok :=
            { tok with
              slots := tok.slots.set 4 ⟨"Duration", dur.getD Val.vNone⟩ }
          match program with
          | some pr =>
            setSlot tok (vocabTypesIdx cfg "Program") ⟨"Program", Val.vInt pr⟩
          | none => tok
        | none => tok

/-- The `__create_cp_token(time, bar=True, time_signature=...)` call. -/
def mkBarToken (cfg : Config) (time : Int) (ts : Option (Nat × Nat)) : CPTok :=
  createCpToken cfg time true none none none none none none none ts none

/-- The `__create_cp_token(time, pos=..., chord=..., tempo=...)` call. -/
def mkPositionToken (cfg : Config) (time : Int) (pos : Int)
    (chord : Option Val) (tempo : Option Rat) : CPTok :=
  createCpToken cfg time false (some pos) none none none chord none tempo none
    none

/-- The `__create_cp_token(time, rest=...)` call. -/
def mkRestToken (cfg : Config) (time : Int) (rest : Val) : CPTok :=
  createCpToken cfg time false none none none none none (some rest) none none
    none

/-- The `__create_cp_token(time, pitch=..., vel=..., dur=..., program=...)`
call. -/
def mkNoteToken (cfg : Config) (time : Int) (pitch vel dur : Val)
    (program : Option Int) : CPTok :=
  createCpToken cfg time false none (some pitch) (some vel) (some dur) none
    none none none program

/-- Mutable state of `_add_time_events` (the spec's Grid State), including the
accumulated output list `all_events` and the cached `ticks_per_bar` local. -/
structure EncState where
  all_events : List CPTok
  current_bar : Int
  bar_at_last_ts_change : Int
  previous_tick : Int
  previous_note_end : Int
  tick_at_last_ts_change : Int
  tick_at_current_bar : Int
  current_time_sig : Nat × Nat
  current_tempo : Rat
  current_program : Option Int
  ticks_per_bar : Int
deriving DecidableEq, Repr

/-- The `(Rest)` block of `_add_time_events` (executed when the event tick
moved): if rests are enabled and the silence since `previous_note_end` reaches
`_min_rest`, emit greedy Rest tokens covering `event.time - previous_note_end`
and silently catch the bar bookkeeping up, without emitting Bar tokens. -/
def restBlock (cfg : Config) (td : Int) (ev : Event) (st : EncState) :
    EncState :=
  if cfg.use_rests ∧ cfg.min_rest ≤ ev.time - st.previous_note_end then
    let pt0 := st.previous_note_end
    let rv := ticksToRestTokens cfg td (ev.time - pt0)
    let acc :=
      rv.foldl
        (fun (acc : List CPTok × Int) p =>
          (acc.1
              ++ [mkRestToken cfg acc.2 (Val.vDur p.1.1 p.1.2.1 p.1.2.2)],
            acc.2 + p.2))
        ([], pt0)
    let st :=
      { st with all_events := st.all_events ++ acc.1, previous_tick := acc.2 }
    let real :=
      st.bar_at_last_ts_change
        + Int.fdiv (st.previous_tick - st.tick_at_last_ts_change)
          st.ticks_per_bar
    if st.current_bar < real then
      { st with
        tick_at_current_bar :=
          st.tick_at_current_bar + (real - st.current_bar) * st.ticks_per_bar,
        current_bar := real }
    else st
  else st

/-- `nb_new_bars` of the Bar block of `_add_time_events`. -/
def barsToAdd (st : EncState) (ev : Event) : Int :=
  st.bar_at_last_ts_change
      + Int.fdiv (ev.time - st.tick_at_last_ts_change) st.ticks_per_bar
    - st.current_bar

/-- The Bar block of `_add_time_events`: if the event tick lies `nb_new_bars ≥ 1`
bars past `current_bar`, emit that many Bar tokens carrying the tracked time
signature (the last one carrying the event's new signature when the event is
itself a `TimeSig` change) and advance `current_bar` / `tick_at_current_bar`. -/
def barBlock (cfg : Config) (st : EncState) (ev : Event) : EncState :=
  let nb := barsToAdd st ev
  if 1 ≤ nb then
    let tsArg : Option (Nat × Nat) :=
      if cfg.use_time_signatures then some st.current_time_sig else none
    let toks :=
      (List.range nb.toNat).map fun i =>
        let tsArg :=
          if i = nb.toNat - 1 ∧ ev.type = "TimeSig" then
            some ((tsOfVal ev.value).getD TIME_SIGNATURE)
          else tsArg
        mkBarToken cfg ((st.current_bar + i + 1) * st.ticks_per_bar) tsArg
    { st with
      all_events := st.all_events ++ toks,
      current_bar := st.current_bar + nb,
      tick_at_current_bar :=
        st.tick_at_last_ts_change
          + (st.current_bar + nb - st.bar_at_last_ts_change)
            * st.ticks_per_bar }
  else st

/-- The Position block of `_add_time_events`: unless the triggering event is a
`TimeSig` change, emit one Position token at grid index
`int((event.time - tick_at_current_bar) / ticks_per_sample)` (with
`ticks_per_sample = time_division / max(beat_res)`), attaching the chord value
for `Chord` events and the tracked tempo when tempos are enabled. -/
def positionBlock (cfg : Config) (td : Int) (ev : Event) (st : EncState) :
    EncState :=
  if ev.type ≠ "TimeSig" then
    let pos :=
      Int.tdiv ((ev.time - st.tick_at_current_bar) * (cfg.beat_res_max : Int))
        td
    let chordArg := if ev.type = "Chord" then some ev.value else none
    let tempoArg := if cfg.use_tempos then some st.current_tempo else none
    { st with
      all_events :=
        st.all_events ++ [mkPositionToken cfg ev.time pos chordArg tempoArg] }
  else st

/-- The `event.time != previous_tick` block of `_add_time_events`: Rest, Bar
and Position emission followed by the `previous_tick` update. -/
def timeBlock (cfg : Config) (td : Int) (ev : Event) (st : EncState) :
    EncState :=
  let st := restBlock cfg td ev st
  let st := barBlock cfg st ev
  let st := positionBlock cfg td ev st
  { st with previous_tick := ev.time }

/-- The `TimeSig` bookkeeping block of `_add_time_events`: update the tracked
signature and the last-change tick/bar, recompute `ticks_per_bar`, and
decrement `previous_tick` so a Position token is enforced for the next event. -/
def tsUpdate (td : Int) (ev : Event) (st : EncState) : EncState :=
  let ts := (tsOfVal ev.value).getD TIME_SIGNATURE
  { st with
    current_time_sig := ts,
    bar_at_last_ts_change :=
      st.bar_at_last_ts_change
        + Int.fdiv (ev.time - st.tick_at_last_ts_change) st.ticks_per_bar,
    tick_at_last_ts_change := ev.time,
    ticks_per_bar := computeTicksPerBar ts td,
    previous_tick := st.previous_tick - 1 }

/-- The Note block of `_add_time_events`: a `Pitch` event followed by at least
two further events (`e + 2 < len(events)`, its Velocity and Duration
companions) emits one Note token and raises the note-end watermark; a trailing
`Pitch` with fewer than two followers is silently dropped.  `comps` holds the
next two events when they exist (`events[e+1]`, `events[e+2]`). -/
def noteBlock (cfg : Config) (ev : Event) (comps : List Event)
    (st : EncState) : EncState :=
  if ev.type = "Pitch" ∧ comps.length = 2 then
    let vel := (comps.getD 0 default).value
    let dur := (comps.getD 1 default).value
    { st with
      all_events :=
        st.all_events
          ++ [mkNoteToken cfg ev.time ev.value vel dur st.current_program],
      previous_note_end := max st.previous_note_end ev.desc }
  else
    if ev.type = "Program" ∨ ev.type = "Tempo" ∨ ev.type = "TimeSig"
        ∨ ev.type = "Chord" then
      { st with previous_note_end := max st.previous_note_end ev.time }
    else st

/-- One iteration of the main loop of `_add_time_events` for event `ev`, with
`comps` the next two events of the stream (when present). -/
def stepOne (cfg : Config) (td : Int) (ev : Event) (comps : List Event)
    (st : EncState) : EncState :=
  let st :=
    if ev.type = "Tempo" then
      { st with current_tempo := (ratOfVal ev.value).getD st.current_tempo }
    else st
  if ev.type = "Program" then
    { st with current_program := some ((intOfVal ev.value).getD 0) }
  else
    let st := if ev.time ≠ st.previous_tick then timeBlock cfg td ev st else st
    let st := if ev.type = "TimeSig" then tsUpdate td ev st else st
    noteBlock cfg ev comps st

/-- The main loop of `_add_time_events` over the event list; each event sees
the following two events as its potential Velocity/Duration companions
(`e + 2 < len(events)` in the source is `2 ≤ rest.length` here). -/
def encodeEvents (cfg : Config) (td : Int) : List Event → EncState → EncState
  | [], st => st
  | ev :: rest, st =>
    encodeEvents cfg td rest (stepOne cfg td ev (rest.take 2) st)

/-- The tick-0 `TimeSig` pre-scan of `_add_time_events`: first `TimeSig` value
before any Pitch/Velocity/Duration/PitchBend/Pedal event. -/
def scanTS : List Event → Option (Nat × Nat)
  | [] => none
  | ev :: rest =>
    if ev.type = "TimeSig" then some ((tsOfVal ev.value).getD TIME_SIGNATURE)
    else
      if ev.type = "Pitch" ∨ ev.type = "Velocity" ∨ ev.type = "Duration"
          ∨ ev.type = "PitchBend" ∨ ev.type = "Pedal" then none
      else scanTS rest

/-- The tick-0 `Tempo` pre-scan of `_add_time_events`. -/
def scanTempo : List Event → Option Rat
  | [] => none
  | ev :: rest =>
    if ev.type = "Tempo" then some ((ratOfVal ev.value).getD TEMPO)
    else
      if ev.type = "Pitch" ∨ ev.type = "Velocity" ∨ ev.type = "Duration"
          ∨ ev.type = "PitchBend" ∨ ev.type = "Pedal" then none
      else scanTempo rest

/-- The initial Grid State of `_add_time_events`, after the two tick-0
pre-scan loops. -/
def encInit (cfg : Config) (td : Int) (events : List Event) : EncState :=
  let ts0 :=
    if cfg.use_time_signatures then (scanTS events).getD TIME_SIGNATURE
    else TIME_SIGNATURE
  let tempo0 :=
    if cfg.log_tempos then nearestTempo cfg.tempos else TEMPO
  let tempo0 :=
    if cfg.use_tempos then (scanTempo events).getD tempo0 else tempo0
  { all_events := []
    current_bar := -1
    bar_at_last_ts_change := 0
    previous_tick := -1
    previous_note_end := 0
    tick_at_last_ts_change := 0
    tick_at_current_bar := 0
    current_time_sig := ts0
    current_tempo := tempo0
    current_program := none
    ticks_per_bar := computeTicksPerBar ts0 td }

/-- `_add_time_events`: the full segmenter, producing the compound-token
sequence for one track. -/
def addTimeEvents (cfg : Config) (td : Int) (events : List Event) :
    List CPTok :=
  (encodeEvents cfg td events (encInit cfg td events)).all_events

/-- Association-list lookup (Python `dict` access), first binding wins. -/
def alGetS (al : List (String × List String)) (k : String) :
    Option (List String) :=
  (al.find? (fun p => p.1 = k)).map (·.2)

/-- Python `dic[k] = v`: overwrite in place when the key exists, otherwise
append the new binding (insertion order preserved). -/
def alSetS (al : List (String × List String)) (k : String)
    (v : List String) : List (String × List String) :=
  if al.any (fun p => p.1 = k) then
    al.map (fun p => if p.1 = k then (p.1, v) else p)
  else al ++ [(k, v)]

/-- Python `dic[k] += vs` / `dic[k].append(v)` on an existing key. -/
def alAppS (al : List (String × List String)) (k : String)
    (vs : List String) : List (String × List String) :=
  al.map (fun p => if p.1 = k then (p.1, p.2 ++ vs) else p)

/-- `_create_token_types_graph`: the legal token-type succession graph (keyed
by abstract type label).  Only the chords / rests / tempos flags are read.
Note the final line: `dic["Ignore"] = list(dic.keys())` evaluates the key list
before inserting `"Ignore"`, so `"Ignore"` is absent from its own successor
list. -/
def createTokenTypesGraph (use_chords use_rests use_tempos : Bool) :
    List (String × List String) :=
  let dic : List (String × List String) :=
    [("Bar", ["Position", "Bar"]), ("Position", ["Pitch"]),
      ("Pitch", ["Pitch", "Bar", "Position"])]
  let dic :=
    if use_chords then
      alAppS (alSetS dic "Rest" ["Rest", "Position"]) "Pitch" ["Rest"]
    else dic
  let dic :=
    if use_rests then
      alAppS (alSetS dic "Rest" ["Rest", "Position", "Bar"]) "Pitch" ["Rest"]
    else dic
  let dic :=
    if use_tempos then
      let dic := alAppS dic "Position" ["Position", "Bar"]
      if use_rests then
        alAppS (alAppS dic "Position" ["Rest"]) "Rest" ["Position"]
      else dic
    else dic
  let dic := dic.map (fun p => (p.1, p.2 ++ ["Ignore"]))
  dic ++ [("Ignore", dic.map (·.1))]

/-- The scan over the last four slots in `cp_token_type` (`tok[-i]` for
`i = 1..4`): first non-`Ignore` slot wins; exhausting the four indices is the
`RuntimeError`, and `tok[-i]` on a token shorter than `i` is an `IndexError`
(both surface as `none` from `cpTokenType`). -/
def cpScanAt (slots : List Slot) (i : Nat) : Option (Option (String × Val)) :=
  if i ≤ slots.length then
    match slots.get? (slots.length - i) with
    | some s => if s.ty = "Ignore" then none else some (some (s.ty, s.val))
    | none => some none
  else some none

def cpScanLast (slots : List Slot) : Option (Option (String × Val)) :=
  match cpScanAt slots 1 with
  | some r => some r
  | none =>
    match cpScanAt slots 2 with
    | some r => some r
    | none =>
      match cpScanAt slots 3 with
      | some r => some r
      | none =>
        match cpScanAt slots 4 with
        | some r => some r
        | none => some none

/-- `cp_token_type` inside `tokens_errors`: classify a compound token by its
dominant type, returning the `(type, value)` pair; `none` models the raised
`RuntimeError` (or an index/parse error). -/
def cpTokenType (_cfg : Config) (tok : CPTok) : Option (String × Val) :=
  match tok.slots.get? 0 with
  | none => none
  | some s0 =>
    let family := famOfVal s0.val
    if family = "Note" then
      match tok.slots.get? 2 with
      | some s2 => some (s2.ty, s2.val)
      | none => none
    else
      if family = "Metric" then
        match tok.slots.get? 1 with
        | some s1 =>
          if s1.ty = "Bar" ∨ s1.ty = "Position" then some (s1.ty, s1.val)
          else
            match cpScanLast tok.slots with
            | some r => r
            | none => none
        | none => none
      else if family = "None" then some ("PAD", Val.vNone) else none

/-- Per-program pitch sets `{p: [] for p in self.config.programs}`. -/
def resetPitches (cfg : Config) : List (Int × List Int) :=
  cfg.programs.map (fun p => (p, []))

/-- Pitch-set lookup (`current_pitches[program]`); a missing program is a
`KeyError`. -/
def alFind (al : List (Int × List Int)) (k : Int) : Option (List Int) :=
  (al.find? (fun p => p.1 = k)).map (·.2)

/-- `current_pitches[program].append(v)`. -/
def alAdd : List (Int × List Int) → Int → Int → List (Int × List Int)
  | [], _, _ => []
  | (k, l) :: rest, key, v =>
    if k = key then (k, l ++ [v]) :: rest else (k, l) :: alAdd rest key v

/-- The scoring state of `tokens_errors`. -/
structure ErrState where
  err : Nat
  previous_type : String
  current_pos : Int
  program : Int
  current_pitches : List (Int × List Int)
deriving DecidableEq, Repr

/-- One iteration of the scoring loop of `tokens_errors` (tokens after the
first).  `none` propagates the `RuntimeError` of `cp_token_type`, a `KeyError`
on the graph or pitch dictionaries, or a value-parse error. -/
def errStep (cfg : Config) (graph : List (String × List String))
    (st : ErrState) (tok : CPTok) : Option ErrState :=
  match cpTokenType cfg tok with
  | none => none
  | some tv =>
    match alGetS graph st.previous_type with
    | none => none
    | some succs =>
      if tv.1 ∈ succs then
        if tv.1 = "Bar" then
          some
            { st with
              previous_type := tv.1, current_pos := -1,
              current_pitches := resetPitches cfg }
        else
          if tv.1 = "Pitch" then
            match
              (if cfg.use_programs then
                match tok.slots.get? 5 with
                | none => none
                | some s5 => intOfVal s5.val
              else some st.program) with
            | none => none
            | some prog =>
              match intOfVal tv.2 with
              | none => none
              | some pv =>
                match alFind st.current_pitches prog with
                | none => none
                | some lst =>
                  if pv ∈ lst then
                    some
                      { st with
                        err := st.err + 1, previous_type := tv.1,
                        program := prog }
                  else
                    some
                      { st with
                        current_pitches := alAdd st.current_pitches prog pv,
                        previous_type := tv.1, program := prog }
          else
            if tv.1 = "Position" then
              match intOfVal tv.2 with
              | none => none
              | some pv =>
                if pv ≤ st.current_pos ∧ st.previous_type ≠ "Rest" then
                  some { st with err := st.err + 1, previous_type := tv.1 }
                else
                  some
                    { st with
                      current_pos := pv,
                      current_pitches := resetPitches cfg,
                      previous_type := tv.1 }
            else some { st with previous_type := tv.1 }
      else some { st with err := st.err + 1, previous_type := tv.1 }

/-- The scoring pass of `tokens_errors` up to (but not including) the final
division: classify the first token, fold the remaining tokens through
`errStep`.  An empty sequence is the source's `tokens[0]` `IndexError`. -/
def valRun (cfg : Config) (tokens : List CPTok) : Option ErrState :=
  match tokens with
  | [] => none
  | t0 :: rest =>
    match cpTokenType cfg t0 with
    | none => none
    | some f =>
      rest.foldlM
        (errStep cfg
          (createTokenTypesGraph cfg.use_chords cfg.use_rests
            cfg.use_tempos))
        ⟨0, f.1, -1, 0, resetPitches cfg⟩

/-- `tokens_errors`: the error ratio `err / len(tokens)` of one token
sequence, `none` when the source raises. -/
def tokensErrors (cfg : Config) (tokens : List CPTok) : Option Rat :=
  match valRun cfg tokens with
  | none => none
  | some fin => some ((fin.err : Rat) / (tokens.length : Rat))

/-- A decoded note (`miditoolkit.Note(vel, pitch, start, end)`). -/
structure NoteR where
  vel : Int
  pitch : Int
  start : Int
  fin : Int
deriving DecidableEq, Repr

/-- A decoded tempo change (`miditoolkit.TempoChange`). -/
structure TempoCh where
  tempo : Rat
  time : Int
deriving DecidableEq, Repr

/-- A decoded time-signature change (`miditoolkit.TimeSignature`). -/
structure TimeSigCh where
  num : Nat
  den : Nat
  time : Int
deriving DecidableEq, Repr

/-- The decoding state of `tokens_to_midi`: the per-program instrument map of
single-stream mode (`instruments`), the finished per-track instruments
(`tracks`, each with its program) and the notes of the track being decoded
(`cur_notes` / `cur_prog`), the global tempo / time-signature lists, and the
Grid-State tick/bar bookkeeping. -/
structure DecState where
  insts : List (Int × List NoteR)
  tracks : List (Int × List NoteR)
  cur_prog : Int
  cur_notes : List NoteR
  tempo_changes : List TempoCh
  time_signature_changes : List TimeSigCh
  current_tick : Int
  tick_at_last_ts_change : Int
  tick_at_current_bar : Int
  current_bar : Int
  bar_at_last_ts_change : Int
  current_program : Int
  previous_note_end : Int
  current_time_sig : TimeSigCh
  ticks_per_bar : Int
deriving DecidableEq, Repr

/-- `check_inst` + `instruments[prog].notes.append` of single-stream mode. -/
def addNoteStream (insts : List (Int × List NoteR)) (prog : Int)
    (n : NoteR) : List (Int × List NoteR) :=
  if (insts.find? (fun p => p.1 = prog)).isSome then
    insts.map (fun p => if p.1 = prog then (p.1, p.2 ++ [n]) else p)
  else insts ++ [(prog, [n])]

/-- The `Note` family branch of the decode loop of `tokens_to_midi`: skip the
token when a required field is `None`, otherwise append the decoded note and
raise the note-end watermark. -/
def decodeNoteTok (cfg : Config) (td : Int) (st : DecState) (tok : CPTok) :
    Option DecState :=
  let padIdx := if cfg.use_programs then 6 else 5
  let checked := (tok.slots.drop 2).take (padIdx - 2)
  if checked.any (fun s => s.val = Val.vNone) then some st
  else
    match tok.slots.get? 2, tok.slots.get? 3, tok.slots.get? 4 with
    | some s2, some s3, some s4 =>
      match intOfVal s2.val, intOfVal s3.val, durOfVal s4.val with
      | some pitch, some vel, some d4 =>
        let duration := tokenDurationToTicks d4 td
        match
          (if cfg.use_programs then
            match tok.slots.get? 5 with
            | none => none
            | some s5 => intOfVal s5.val
          else some st.current_program) with
        | none => none
        | some pr =>
          let st := { st with current_program := pr }
          let n : NoteR :=
            ⟨vel, pitch, st.current_tick, st.current_tick + duration⟩
          let st :=
            if cfg.one_token_stream then
              { st with insts := addNoteStream st.insts st.current_program n }
            else { st with cur_notes := st.cur_notes ++ [n] }
          some
            { st with
              previous_note_end :=
                max st.previous_note_end (st.current_tick + duration) }
      | _, _, _ => none
    | _, _, _ => none

/-- The `Bar` branch of the decode loop: advance the bar bookkeeping and,
with time signatures enabled, register a signature change (globally only for
sequence 0) when the Bar token carries a new signature. -/
def decodeBarTok (cfg : Config) (td : Int) (si : Nat) (st : DecState)
    (tok : CPTok) : Option DecState :=
  let st := { st with current_bar := st.current_bar + 1 }
  let st :=
    if (0 : Int) < st.current_bar then
      { st with current_tick := st.tick_at_current_bar + st.ticks_per_bar }
    else st
  let st := { st with tick_at_current_bar := st.current_tick }
  if cfg.use_time_signatures then
    match vocabTypesIdx cfg "TimeSig" with
    | none => none
    | some idx =>
      match tok.slots.get? idx with
      | none => none
      | some sts =>
        match tsOfVal sts.val with
        | none => none
        | some nd =>
          if nd.1 ≠ st.current_time_sig.num
              ∨ nd.2 ≠ st.current_time_sig.den then
            let newTS : TimeSigCh := ⟨nd.1, nd.2, st.current_tick⟩
            let st := { st with current_time_sig := newTS }
            let st :=
              if si = 0 then
                { st with
                  time_signature_changes :=
                    st.time_signature_changes ++ [newTS] }
              else st
            some
              { st with
                tick_at_last_ts_change := st.tick_at_current_bar,
                bar_at_last_ts_change := st.current_bar,
                ticks_per_bar := computeTicksPerBar (newTS.num, newTS.den) td }
          else some st
  else some st

/-- The `Position` branch of the decode loop: set `current_tick` from the
grid index and, with tempos enabled and on sequence 0, register a tempo
change when the carried tempo differs from the last recorded one and
`current_tick` differs from that change's time. -/
def decodePositionTok (cfg : Config) (td : Int) (si : Nat) (st : DecState)
    (tok : CPTok) (s1 : Slot) : Option DecState :=
  let tps := Int.fdiv td (cfg.beat_res_max : Int)
  let st := if st.current_bar = -1 then { st with current_bar := 0 } else st
  match intOfVal s1.val with
  | none => none
  | some pv =>
    let st := { st with current_tick := st.tick_at_current_bar + pv * tps }
    if cfg.use_tempos ∧ si = 0 then
      match vocabTypesIdx cfg "Tempo" with
      | none => none
      | some idx =>
        match tok.slots.get? idx with
        | none => none
        | some stp =>
          match ratOfVal stp.val with
          | none => none
          | some q =>
            let last := st.tempo_changes.getLastD ⟨TEMPO, -1⟩
            if q ≠ last.tempo ∧ st.current_tick ≠ last.time then
              some
                { st with
                  tempo_changes :=
                    st.tempo_changes ++ [⟨q, st.current_tick⟩] }
            else some st
    else some st

/-- The `Rest` branch of the decode loop (reached for a `Metric` token whose
slot 1 is neither `Bar` nor `Position`): with rests enabled and a non-`None`
rest field, advance `current_tick` past the rest and silently catch the bar
bookkeeping up. -/
def decodeRestTok (cfg : Config) (td : Int) (st : DecState) (tok : CPTok) :
    Option DecState :=
  if cfg.use_rests then
    match vocabTypesIdx cfg "Rest" with
    | none => none
    | some idx =>
      match tok.slots.get? idx with
      | none => none
      | some srs =>
        if srs.val ≠ Val.vNone then
          match durOfVal srs.val with
          | none => none
          | some rd =>
            let st :=
              { st with
                current_tick :=
                  max st.previous_note_end st.current_tick
                    + tokenDurationToTicks rd td }
            let real :=
              st.bar_at_last_ts_change
                + Int.fdiv (st.current_tick - st.tick_at_last_ts_change)
                  st.ticks_per_bar
            if st.current_bar < real then
              some
                { st with
                  tick_at_current_bar :=
                    st.tick_at_current_bar
                      + (real - st.current_bar) * st.ticks_per_bar,
                  current_bar := real }
            else some st
        else some st
  else some st

/-- Decode one compound token (the body of the `for ti, compound_token in
enumerate(seq)` loop of `tokens_to_midi`).  `si` is the sequence index; only
sequence 0 records tempo / time-signature changes globally.  `none` models a
raised exception (`IndexError` on a short token, `ValueError` from `int` /
`float` / time-signature parsing on a malformed slot). -/
def decodeToken (cfg : Config) (td : Int) (si : Nat) (st : DecState)
    (tok : CPTok) : Option DecState :=
  let family := famOfTok tok
  if family = "Note" then decodeNoteTok cfg td st tok
  else
    if family = "Metric" then
      match tok.slots.get? 1 with
      | none => none
      | some s1 =>
        match
          (if s1.ty = "Bar" then decodeBarTok cfg td si st tok
          else
            if s1.ty = "Position" then decodePositionTok cfg td si st tok s1
            else decodeRestTok cfg td st tok) with
        | none => none
        | some st =>
          some
            { st with
              previous_note_end := max st.previous_note_end st.current_tick }
    else some st

/-- The first-sequence time-signature pre-scan of `tokens_to_midi`: walk the
tokens, stop at the first non-`Metric` token, and return the time signature of
the first `Bar` token if one is reached.  The outer `none` is a raised parse /
index error. -/
def scanFirstTS (cfg : Config) : List CPTok → Option (Option (Nat × Nat))
  | [] => some none
  | tok :: rest =>
    if famOfTok tok = "Metric" then
      match tok.slots.get? 1 with
      | none => none
      | some s1 =>
        if s1.ty = "Bar" then
          match vocabTypesIdx cfg "TimeSig" with
          | none => none
          | some idx =>
            match tok.slots.get? idx with
            | none => none
            | some sts =>
              match tsOfVal sts.val with
              | none => none
              | some nd => some (some nd)
        else scanFirstTS cfg rest
    else some none

/-- The sequence-0 time-signature seeding of `tokens_to_midi` (executed only
for `si == 0`): append the scanned leading Bar signature when present, then
default to 4/4 when the global list is still empty. -/
def decodeSeqInit (cfg : Config) (st : DecState) (si : Nat)
    (seq : List CPTok) : Option DecState :=
  if si = 0 then
    match (if cfg.use_time_signatures then scanFirstTS cfg seq
      else some none) with
    | none => none
    | some found =>
      let st :=
        match found with
        | some nd =>
          { st with
            time_signature_changes :=
              st.time_signature_changes ++ [⟨nd.1, nd.2, 0⟩] }
        | none => st
      some
        (if st.time_signature_changes.length = 0 then
          { st with
            time_signature_changes :=
              [⟨TIME_SIGNATURE.1, TIME_SIGNATURE.2, 0⟩] }
        else st)
  else some st

/-- Decode one token sequence (`for si, seq in enumerate(tokens)` body):
first-sequence time-signature seeding, per-track Grid-State reset when not in
single-stream mode, the token loop, and the track hand-off. -/
def decodeOneSeq (cfg : Config) (td : Int)
    (programs : Option (List (Int × Bool))) (st : DecState) (si : Nat)
    (seq : List CPTok) : Option DecState :=
  match decodeSeqInit cfg st si seq with
  | none => none
  | some st =>
    match st.time_signature_changes.head? with
    | none => none
    | some ts0 =>
      let st :=
        { st with
          current_time_sig := ts0,
          ticks_per_bar := computeTicksPerBar (ts0.num, ts0.den) td }
      let st :=
        if cfg.one_token_stream then st
        else
          let prog :=
            match programs with
            | some ps => (ps.getD si (0, false)).1
            | none => st.current_program
          { st with
            current_tick := 0, tick_at_last_ts_change := 0,
            tick_at_current_bar := 0, current_bar := -1,
            bar_at_last_ts_change := 0, previous_note_end := 0,
            current_program := prog, cur_prog := prog, cur_notes := [] }
      match seq.foldlM (decodeToken cfg td si) st with
      | none => none
      | some st =>
        if cfg.one_token_stream then some st
        else
          some
            { st with
              tracks := st.tracks ++ [(st.cur_prog, st.cur_notes)] }

/-- The initial decoding state of `tokens_to_midi` (before the sequence
loop): a mocked tempo change at time `-1`, empty change lists, zeroed
bookkeeping. -/
def decInit : DecState :=
  { insts := []
    tracks := []
    cur_prog := 0
    cur_notes := []
    tempo_changes := [⟨TEMPO, -1⟩]
    time_signature_changes := []
    current_tick := 0
    tick_at_last_ts_change := 0
    tick_at_current_bar := 0
    current_bar := -1
    bar_at_last_ts_change := 0
    current_program := 0
    previous_note_end := 0
    current_time_sig := ⟨TIME_SIGNATURE.1, TIME_SIGNATURE.2, 0⟩
    ticks_per_bar := computeTicksPerBar TIME_SIGNATURE TIME_DIVISION }

/-- The result of `tokens_to_midi`: instrument note lists (per program in
single-stream mode, per track otherwise), tempo changes, time-signature
changes, and `max_tick`. -/
structure DecResult where
  instruments : List (Int × List NoteR)
  tempo_changes : List TempoCh
  time_signature_changes : List TimeSigCh
  max_tick : Int
deriving DecidableEq, Repr

/-- `tokens_to_midi` on the already-unsqueezed list of token sequences.
Fails (`none`) on the `time_division` divisibility assertion, on a raised
decode error, or on the final `max(...)` over an empty instrument list. -/
def tokensToMidi (cfg : Config) (td : Int) (seqs : List (List CPTok))
    (programs : Option (List (Int × Bool))) : Option DecResult :=
  if Int.emod td (cfg.beat_res_max : Int) ≠ 0 then none
  else
    match
      seqs.enum.foldlM
        (fun st p => decodeOneSeq cfg td programs st p.1 p.2) decInit with
    | none => none
    | some st =>
      let tempo_changes :=
        if 1 < st.tempo_changes.length then st.tempo_changes.drop 1
        else st.tempo_changes
      let tempo_changes :=
        match tempo_changes with
        | [] => []
        | t0 :: rest => { t0 with time := 0 } :: rest
      let instruments := if cfg.one_token_stream then st.insts else st.tracks
      let perTrack :=
        instruments.map fun p => ((p.2.map (·.fin)).max?).getD 0
      match perTrack.max? with
      | none => none
      | some maxTick =>
        some
          ⟨instruments, tempo_changes, st.time_signature_changes, maxTick⟩

/-! ## Concrete configurations used by witnesses and counterexamples -/

/-- A minimal configuration: every optional feature disabled, finest beat
resolution 8 samples per beat, single program 0. -/
def cfg0 : Config :=
  { use_programs := false, use_chords := false, use_rests := false,
    use_tempos := false, use_time_signatures := false,
    one_token_stream := false, log_tempos := false, beat_res_max := 8,
    min_rest := 480, programs := [0], rests := [], tempos := [] }

/-! ## C7: the `Ignore` label in the token-types graph -/

/-- C7 (amended): in `_create_token_types_graph`, for every configuration and
every state of the graph, `Ignore` is an allowed successor of that state and
that state is an allowed successor of `Ignore` exactly when the state is not
`Ignore` itself: `dic["Ignore"] = list(dic.keys())` captures the keys before
`"Ignore"` is inserted, so `Ignore` is not its own successor. -/
theorem ignore_universal_except_self (uc ur ut : Bool) (k : String)
    (hk : k ∈ (createTokenTypesGraph uc ur ut).map (·.1)) :
    ("Ignore" ∈ (alGetS (createTokenTypesGraph uc ur ut) k).getD []
        ↔ k ≠ "Ignore")
      ∧ (k ∈ (alGetS (createTokenTypesGraph uc ur ut) "Ignore").getD []
        ↔ k ≠ "Ignore") := by
  cases uc <;> cases ur <;> cases ut <;>
    · simp only [createTokenTypesGraph] at hk ⊢
      fin_cases hk <;> decide

/-- Witness for C7's amended theorem at the all-features-off configuration and
the `Bar` state. -/
theorem ignore_universal_except_self_witness :
    ("Ignore" ∈ (alGetS (createTokenTypesGraph false false false) "Bar").getD []
        ↔ "Bar" ≠ "Ignore")
      ∧ ("Bar" ∈
            (alGetS (createTokenTypesGraph false false false) "Ignore").getD []
          ↔ "Bar" ≠ "Ignore") :=
  ignore_universal_except_self false false false "Bar" (by decide)

/-- Counterexample to C7 as stated: `Ignore` is a state of the graph, yet
`Ignore` is not an allowed successor of `Ignore`. -/
theorem ignore_not_self_successor :
    "Ignore" ∈ (createTokenTypesGraph false false false).map (·.1)
      ∧ "Ignore" ∉
        (alGetS (createTokenTypesGraph false false false) "Ignore").getD [] := by
  decide

/-! ## C8: unclassifiable Metric tokens are fatal for `tokens_errors` -/

lemma errStep_none_of_cpTokenType_none (cfg : Config)
    (g : List (String × List String)) (st : ErrState) (tok : CPTok)
    (h : cpTokenType cfg tok = none) : errStep cfg g st tok = none := by
  unfold errStep
  rw [h]

lemma foldlM_errStep_none (cfg : Config) (g : List (String × List String))
    (l : List CPTok) (tok : CPTok) (hmem : tok ∈ l)
    (h : cpTokenType cfg tok = none) :
    ∀ st, l.foldlM (errStep cfg g) st = none := by
  induction l with
  | nil => cases hmem
  | cons hd tl ih =>
    intro st
    rcases List.mem_cons.mp hmem with heq | htl
    · subst heq
      simp [List.foldlM, errStep_none_of_cpTokenType_none cfg g st tok h]
    · simp only [List.foldlM]
      cases hstep : errStep cfg g st hd with
      | none => rfl
      | some st2 => simpa [hstep] using ih htl st2

/-- C8 (confirmed): a `Metric`-family compound token whose Bar/Position slot
holds neither `Bar` nor `Position` and whose four scanned trailing slots are
all `Ignore` makes `cp_token_type` raise, and `tokens_errors` on any sequence
containing such a token propagates the raise instead of returning a ratio. -/
theorem unclassifiable_token_raises (cfg : Config) (tok : CPTok) (s1 : Slot)
    (h0 : tok.slots.get? 0 = some ⟨"Family", Val.vStr "Metric"⟩)
    (h1 : tok.slots.get? 1 = some s1) (hb : s1.ty ≠ "Bar")
    (hp : s1.ty ≠ "Position")
    (hscan : ∀ i s, 1 ≤ i → i ≤ 4 →
      tok.slots.get? (tok.slots.length - i) = some s → s.ty = "Ignore") :
    cpTokenType cfg tok = none
      ∧ ∀ tokens, tok ∈ tokens → tokensErrors cfg tokens = none := by
  have hone : ∀ i, 1 ≤ i → i ≤ 4 →
      cpScanAt tok.slots i = none ∨ cpScanAt tok.slots i = some none := by
    intro i hi1 hi4
    unfold cpScanAt
    by_cases hle : i ≤ tok.slots.length
    · rcases hg : tok.slots.get? (tok.slots.length - i) with _ | s
      · right; simp [hle, hg]
      · left
        have := hscan i s hi1 hi4 hg
        simp [hle, hg, this]
    · right; simp [hle]
  have hscan4 : cpScanLast tok.slots = some none := by
    unfold cpScanLast
    rcases hone 1 (by omega) (by omega) with e1 | e1 <;> rw [e1]
    · rcases hone 2 (by omega) (by omega) with e2 | e2 <;> rw [e2]
      · rcases hone 3 (by omega) (by omega) with e3 | e3 <;> rw [e3]
        · rcases hone 4 (by omega) (by omega) with e4 | e4 <;> rw [e4]
  have hcls : cpTokenType cfg tok = none := by
    unfold cpTokenType
    rw [h0]
    simp only [famOfVal]
    rw [h1]
    simp [hb, hp, hscan4]
  refine ⟨hcls, fun tokens hmem => ?_⟩
  have hval : valRun cfg tokens = none := by
    cases tokens with
    | nil => rfl
    | cons t0 rest =>
      rcases List.mem_cons.mp hmem with heq | htl
      · subst heq
        simp [valRun, hcls]
      · cases hc0 : cpTokenType cfg t0 with
        | none => simp [valRun, hc0]
        | some f =>
          have := foldlM_errStep_none cfg
            (createTokenTypesGraph cfg.use_chords cfg.use_rests
              cfg.use_tempos)
            rest tok htl hcls ⟨0, f.1, -1, 0, resetPitches cfg⟩
          simp [valRun, hc0, this]
  simp [tokensErrors, hval]

/-- Witness for C8 at a concrete all-`Ignore` Metric token in a minimal
configuration; all hypotheses are discharged by computation and the
conclusion is instantiated at the singleton sequence. -/
theorem unclassifiable_token_raises_witness :
    cpTokenType cfg0 ⟨0, [⟨"Family", Val.vStr "Metric"⟩, ignoreSlot,
        ignoreSlot, ignoreSlot, ignoreSlot]⟩ = none
      ∧ ∀ tokens,
        (⟨0, [⟨"Family", Val.vStr "Metric"⟩, ignoreSlot, ignoreSlot,
            ignoreSlot, ignoreSlot]⟩ : CPTok) ∈ tokens →
          tokensErrors cfg0 tokens = none :=
  unclassifiable_token_raises cfg0 _ ignoreSlot (by decide) (by decide)
    (by decide) (by decide)
    (by
      intro i s hi1 hi4 hg
      interval_cases i <;> simp_all [ignoreSlot] <;> subst hg <;> rfl)

/-! ## C10: the error ratio of a classifiable sequence is in `[0, (n-1)/n]` -/

lemma errStep_err_le (cfg : Config) (g : List (String × List String))
    (st : ErrState) (tok : CPTok) (st' : ErrState)
    (h : errStep cfg g st tok = some st') : st'.err ≤ st.err + 1 := by
  unfold errStep at h
  repeat' split at h
  all_goals (try (cases h))
  all_goals (simp; try omega)

lemma foldlM_errStep_err_le (cfg : Config)
    (g : List (String × List String)) (l : List CPTok) :
    ∀ st st', l.foldlM (errStep cfg g) st = some st' →
      st'.err ≤ st.err + l.length := by
  induction l with
  | nil =>
    intro st st' h
    simp only [List.foldlM, pure] at h
    injection h with h
    subst h
    simp
  | cons hd tl ih =>
    intro st st' h
    simp only [List.foldlM] at h
    cases hstep : errStep cfg g st hd with
    | none => rw [hstep] at h; cases h
    | some st2 =>
      rw [hstep] at h
      have h1 := errStep_err_le cfg g st hd st2 hstep
      have h2 := ih st2 st' h
      simp only [List.length_cons]
      omega

/-- C10 (confirmed): whenever `tokens_errors` returns a ratio (classification
of every token succeeded), the ratio lies in `[0, (n-1)/n]`: the first token
never contributes an error and each later token contributes at most one (a
bad transition and a semantic violation are counted through mutually
exclusive branches), so the ratio is strictly below 1. -/
theorem tokens_errors_ratio_bounds (cfg : Config) (tokens : List CPTok)
    (r : Rat) (h : tokensErrors cfg tokens = some r) :
    0 ≤ r ∧ r ≤ ((tokens.length : Rat) - 1) / (tokens.length : Rat) := by
  unfold tokensErrors at h
  cases hval : valRun cfg tokens with
  | none => rw [hval] at h; cases h
  | some fin =>
    rw [hval] at h
    injection h with h
    subst h
    cases tokens with
    | nil => simp [valRun] at hval
    | cons t0 rest =>
      simp only [valRun] at hval
      split at hval
      · cases hval
      · rename_i f hc0
        have hb := foldlM_errStep_err_le cfg
          (createTokenTypesGraph cfg.use_chords cfg.use_rests cfg.use_tempos)
          rest ⟨0, f.1, -1, 0, resetPitches cfg⟩ fin hval
        rw [Nat.zero_add] at hb
        have hlen : ((t0 :: rest).length : Rat) = (rest.length : Rat) + 1 := by
          push_cast [List.length_cons]
          ring
        have hpos : (0 : Rat) < ((t0 :: rest).length : Rat) := by
          rw [hlen]
          positivity
        constructor
        · positivity
        · rw [div_le_div_iff_of_pos_right hpos]
          rw [hlen]
          have : (fin.err : Rat) ≤ (rest.length : Rat) := by
            exact_mod_cast hb
          linarith

/-- Witness for C10 at a two-token Bar, Bar sequence in the minimal
configuration (ratio 0, bound 1/2). -/
theorem tokens_errors_ratio_bounds_witness :
    0 ≤ (0 : Rat)
      ∧ (0 : Rat) ≤
        (([mkBarToken cfg0 0 none, mkBarToken cfg0 0 none].length : Rat) - 1)
          / ([mkBarToken cfg0 0 none, mkBarToken cfg0 0 none].length : Rat) :=
  tokens_errors_ratio_bounds cfg0
    [mkBarToken cfg0 0 none, mkBarToken cfg0 0 none] 0
    (by
      have hv :
          valRun cfg0 [mkBarToken cfg0 0 none, mkBarToken cfg0 0 none]
            = some ⟨0, "Bar", -1, 0, [(0, [])]⟩ := by decide
      simp [tokensErrors, hv])

/-! ## C3: bar bookkeeping during decoding -/

/-- A compound token that the decode loop treats as a Bar token: `Metric`
family and `Bar` in the Bar/Position slot. -/
def isBarTok (tok : CPTok) : Bool :=
  famOfTok tok = "Metric"
    && (match tok.slots.get? 1 with
      | some s => s.ty = "Bar"
      | none => false)

/-- Number of Bar tokens of a sequence. -/
def countBarToks (seq : List CPTok) : Nat := (seq.filter isBarTok).length

lemma decodeNoteTok_bar (cfg : Config) (td : Int) (st : DecState)
    (tok : CPTok) (st' : DecState) (h : decodeNoteTok cfg td st tok = some st') :
    st'.current_bar = st.current_bar := by
  unfold decodeNoteTok at h
  repeat' (first | (split at h) | (simp only [] at h))
  all_goals (try (cases h))
  all_goals (try simp)

lemma decodeBarTok_bar (cfg : Config) (td : Int) (si : Nat) (st : DecState)
    (tok : CPTok) (st' : DecState)
    (h : decodeBarTok cfg td si st tok = some st') :
    st'.current_bar = st.current_bar + 1 := by
  unfold decodeBarTok at h
  repeat' (first | (split at h) | (simp only [] at h))
  all_goals (try (cases h))
  all_goals (try simp)

lemma decodePositionTok_bar (cfg : Config) (td : Int) (si : Nat)
    (st : DecState) (tok : CPTok) (s1 : Slot) (st' : DecState)
    (h : decodePositionTok cfg td si st tok s1 = some st') :
    st'.current_bar = (if st.current_bar = -1 then 0 else st.current_bar) := by
  unfold decodePositionTok at h
  repeat' (first | (split at h) | (simp only [] at h))
  all_goals (try (cases h))
  all_goals (try simp_all)

lemma decodeRestTok_bar_mono (cfg : Config) (td : Int) (st : DecState)
    (tok : CPTok) (st' : DecState) (h : decodeRestTok cfg td st tok = some st') :
    st.current_bar ≤ st'.current_bar := by
  unfold decodeRestTok at h
  repeat' (first | (split at h) | (simp only [] at h))
  all_goals (try (cases h))
  all_goals (try simp_all)
  all_goals omega

lemma decodeRestTok_norest (cfg : Config) (td : Int) (st : DecState)
    (tok : CPTok) (st' : DecState) (hr : cfg.use_rests = false)
    (h : decodeRestTok cfg td st tok = some st') : st' = st := by
  unfold decodeRestTok at h
  rw [hr] at h
  simp at h
  exact h.symm

lemma decodeToken_bar_mono (cfg : Config) (td : Int) (si : Nat)
    (st : DecState) (tok : CPTok) (st' : DecState)
    (h : decodeToken cfg td si st tok = some st') :
    st.current_bar ≤ st'.current_bar := by
  unfold decodeToken at h
  simp only [] at h
  by_cases hn : famOfTok tok = "Note"
  · rw [if_pos hn] at h
    have := decodeNoteTok_bar cfg td st tok st' h
    omega
  · rw [if_neg hn] at h
    by_cases hm : famOfTok tok = "Metric"
    · rw [if_pos hm] at h
      cases hg : tok.slots.get? 1 with
      | none => rw [hg] at h; cases h
      | some s1 =>
        rw [hg] at h
        simp only [] at h
        cases hinner : (if s1.ty = "Bar" then decodeBarTok cfg td si st tok
            else
              if s1.ty = "Position" then decodePositionTok cfg td si st tok s1
              else decodeRestTok cfg td st tok) with
        | none => rw [hinner] at h; cases h
        | some st2 =>
          rw [hinner] at h
          simp only [] at h
          injection h with h
          subst h
          have hle : st.current_bar ≤ st2.current_bar := by
            split at hinner
            · have := decodeBarTok_bar cfg td si st tok st2 hinner
              omega
            · split at hinner
              · have := decodePositionTok_bar cfg td si st tok s1 st2 hinner
                split at this <;> omega
              · exact decodeRestTok_bar_mono cfg td st tok st2 hinner
          simpa using hle
    · rw [if_neg hm] at h
      injection h with h
      subst h
      omega

lemma decodeToken_bar_count (cfg : Config) (td : Int) (si : Nat)
    (st : DecState) (tok : CPTok) (st' : DecState)
    (hr : cfg.use_rests = false) (hnn : 0 ≤ st.current_bar)
    (h : decodeToken cfg td si st tok = some st') :
    st'.current_bar = st.current_bar + (if isBarTok tok then 1 else 0) := by
  unfold decodeToken at h
  simp only [] at h
  by_cases hn : famOfTok tok = "Note"
  · rw [if_pos hn] at h
    have := decodeNoteTok_bar cfg td st tok st' h
    have hnb : isBarTok tok = false := by
      simp [isBarTok, hn]
    rw [hnb]
    simp [this]
  · rw [if_neg hn] at h
    by_cases hm : famOfTok tok = "Metric"
    · rw [if_pos hm] at h
      cases hg : tok.slots.get? 1 with
      | none => rw [hg] at h; cases h
      | some s1 =>
        rw [hg] at h
        simp only [] at h
        cases hinner : (if s1.ty = "Bar" then decodeBarTok cfg td si st tok
            else
              if s1.ty = "Position" then decodePositionTok cfg td si st tok s1
              else decodeRestTok cfg td st tok) with
        | none => rw [hinner] at h; cases h
        | some st2 =>
          rw [hinner] at h
          simp only [] at h
          injection h with h
          subst h
          by_cases hbar : s1.ty = "Bar"
          · rw [if_pos hbar] at hinner
            have := decodeBarTok_bar cfg td si st tok st2 hinner
            have hb : isBarTok tok = true := by
              unfold isBarTok
              rw [hm, hg]
              simp [hbar]
            rw [hb]
            simp [this]
          · rw [if_neg hbar] at hinner
            have hnb : isBarTok tok = false := by
              unfold isBarTok
              rw [hg]
              simp [hbar]
            rw [hnb]
            by_cases hpos : s1.ty = "Position"
            · rw [if_pos hpos] at hinner
              have := decodePositionTok_bar cfg td si st tok s1 st2 hinner
              rw [if_neg (by omega)] at this
              simp [this]
            · rw [if_neg hpos] at hinner
              have := decodeRestTok_norest cfg td st tok st2 hr hinner
              subst this
              simp
    · rw [if_neg hm] at h
      injection h with h
      subst h
      have hnb : isBarTok tok = false := by
        simp [isBarTok, hm]
      rw [hnb]
      simp

lemma foldlM_decodeToken_mono (cfg : Config) (td : Int) (si : Nat)
    (l : List CPTok) :
    ∀ st st', l.foldlM (decodeToken cfg td si) st = some st' →
      st.current_bar ≤ st'.current_bar := by
  induction l with
  | nil =>
    intro st st' h
    simp only [List.foldlM, pure] at h
    injection h with h
    subst h
    omega
  | cons hd tl ih =>
    intro st st' h
    simp only [List.foldlM] at h
    cases hstep : decodeToken cfg td si st hd with
    | none => rw [hstep] at h; cases h
    | some st2 =>
      rw [hstep] at h
      have := decodeToken_bar_mono cfg td si st hd st2 hstep
      have := ih st2 st' h
      omega

lemma foldlM_decodeToken_count (cfg : Config) (td : Int) (si : Nat)
    (l : List CPTok) (hr : cfg.use_rests = false) :
    ∀ st st', 0 ≤ st.current_bar →
      l.foldlM (decodeToken cfg td si) st = some st' →
      st'.current_bar = st.current_bar + countBarToks l := by
  induction l with
  | nil =>
    intro st st' _ h
    simp only [List.foldlM, pure] at h
    injection h with h
    subst h
    simp [countBarToks]
  | cons hd tl ih =>
    intro st st' hnn h
    simp only [List.foldlM] at h
    cases hstep : decodeToken cfg td si st hd with
    | none => rw [hstep] at h; cases h
    | some st2 =>
      rw [hstep] at h
      have h1 := decodeToken_bar_count cfg td si st hd st2 hr hnn hstep
      have h2 := ih st2 st' (by omega) h
      rw [h2, h1]
      simp only [countBarToks, List.filter]
      cases hb : isBarTok hd <;> (simp [hb]; try omega)

/-- C3 (amended): during decoding of a single compound-token sequence the
tracked `current_bar` is non-decreasing (at every point of the token loop);
and when rests are disabled and decoding has entered a bar
(`current_bar ≥ 0`, i.e. no Position token arrives before the first Bar
token), its total increase equals exactly the number of Bar tokens consumed.
An initial Position token bumps `current_bar` from `-1` to `0` without a Bar
token, and Rest tokens advance it silently, which refutes the unrestricted
count. -/
theorem decode_bar_monotone_and_count :
    (∀ (cfg : Config) (td : Int) (si : Nat) (l1 l2 : List CPTok)
        (st st1 st2 : DecState),
        l1.foldlM (decodeToken cfg td si) st = some st1 →
        (l1 ++ l2).foldlM (decodeToken cfg td si) st = some st2 →
        st1.current_bar ≤ st2.current_bar)
      ∧ (∀ (cfg : Config) (td : Int) (si : Nat) (l : List CPTok)
          (st st' : DecState), cfg.use_rests = false →
          0 ≤ st.current_bar →
          l.foldlM (decodeToken cfg td si) st = some st' →
          st'.current_bar = st.current_bar + countBarToks l) := by
  constructor
  · intro cfg td si l1 l2 st st1 st2 h1 h12
    rw [List.foldlM_append, h1] at h12
    simp only [Option.bind_eq_bind, Option.some_bind] at h12
    exact foldlM_decodeToken_mono cfg td si l2 st1 st2 h12
  · intro cfg td si l st st' hr hnn h
    exact foldlM_decodeToken_count cfg td si l hr st st' hnn h

/-- A decoding state that has already entered bar 0. -/
def stW : DecState := { decInit with current_bar := 0 }

/-- The state after decoding one Bar token from `stW`. -/
def stW2 : DecState :=
  (([mkBarToken cfg0 0 none].foldlM (decodeToken cfg0 480 0) stW).getD
    decInit)

/-- Witness for C3's amended theorem: decoding one Bar token from a state in
bar 0 is monotone and increases the bar counter by exactly the one Bar
token. -/
theorem decode_bar_monotone_and_count_witness :
    stW.current_bar ≤ stW2.current_bar
      ∧ stW2.current_bar
        = stW.current_bar + countBarToks [mkBarToken cfg0 0 none] :=
  ⟨decode_bar_monotone_and_count.1 cfg0 480 0 [] [mkBarToken cfg0 0 none]
      stW stW stW2 (by decide) (by decide),
    decode_bar_monotone_and_count.2 cfg0 480 0 [mkBarToken cfg0 0 none]
      stW stW2 (by decide) (by decide) (by decide)⟩

/-- Counterexample to C3 as stated: decoding the single-token sequence made
of one Position token moves `current_bar` from `-1` to `0` (an increase of 1)
while zero Bar tokens are consumed. -/
theorem position_before_bar_bumps_counter :
    (decodeOneSeq cfg0 480 none decInit 0
          [mkPositionToken cfg0 0 0 none none]).map (fun s => s.current_bar)
        = some 0
      ∧ decInit.current_bar = -1
      ∧ countBarToks [mkPositionToken cfg0 0 0 none none] = 0 := by
  decide

/-! ## C5: tempo registration during decoding -/

/-- A configuration with tempos enabled and every other optional feature
disabled. -/
def cfgT : Config :=
  { use_programs := false, use_chords := false, use_rests := false,
    use_tempos := true, use_time_signatures := false,
    one_token_stream := false, log_tempos := false, beat_res_max := 8,
    min_rest := 480, programs := [0], rests := [],
    tempos := [100, 110, 120] }

/-- C5 (amended): with tempos enabled, a Position token of the first sequence
(`si = 0`) carrying tempo `q` registers a tempo change at the new
`current_tick` if and only if `q` differs from the last recorded tempo AND
`current_tick` differs from the time of the last recorded change (the claim
omits the second condition); and no token of any other sequence (`si ≠ 0`)
ever modifies the global tempo list. -/
theorem tempo_registration_condition :
    (∀ (cfg : Config) (td : Int) (st : DecState) (tok : CPTok) (s1 : Slot)
        (pv : Int) (q : Rat) (idx : Nat) (stp : Slot) (st' : DecState),
        cfg.use_tempos = true →
        intOfVal s1.val = some pv →
        vocabTypesIdx cfg "Tempo" = some idx →
        tok.slots.get? idx = some stp →
        ratOfVal stp.val = some q →
        decodePositionTok cfg td 0 st tok s1 = some st' →
        st'.tempo_changes =
          (if q ≠ (st.tempo_changes.getLastD ⟨TEMPO, -1⟩).tempo
              ∧ st.tick_at_current_bar
                  + pv * Int.fdiv td (cfg.beat_res_max : Int)
                ≠ (st.tempo_changes.getLastD ⟨TEMPO, -1⟩).time then
            st.tempo_changes
              ++ [⟨q, st.tick_at_current_bar
                  + pv * Int.fdiv td (cfg.beat_res_max : Int)⟩]
          else st.tempo_changes))
      ∧ (∀ (cfg : Config) (td : Int) (si : Nat) (st : DecState) (tok : CPTok)
          (st' : DecState), si ≠ 0 →
          decodeToken cfg td si st tok = some st' →
          st'.tempo_changes = st.tempo_changes) := by
  constructor
  · intro cfg td st tok s1 pv q idx stp st' hut hpv hidx hstp hq h
    unfold decodePositionTok at h
    simp only [] at h
    rw [hpv] at h
    simp only [] at h
    rw [if_pos (by simp [hut])] at h
    rw [hidx] at h
    simp only [] at h
    rw [hstp] at h
    simp only [] at h
    rw [hq] at h
    simp only [] at h
    by_cases hcb : st.current_bar = -1 <;>
      · simp only [hcb, if_pos, if_neg, if_true, if_false, reduceIte] at h
        split at h
        · injection h with h
          subst h
          rename_i hcond
          rw [if_pos hcond]
        · injection h with h
          subst h
          rename_i hcond
          rw [if_neg hcond]
  · intro cfg td si st tok st' hsi h
    have hnote : ∀ st2, decodeNoteTok cfg td st tok = some st2 →
        st2.tempo_changes = st.tempo_changes := by
      intro st2 h2
      unfold decodeNoteTok at h2
      repeat' (first | (split at h2) | (simp only [] at h2))
      all_goals (try (cases h2))
      all_goals (try simp)
    have hbar : ∀ st2, decodeBarTok cfg td si st tok = some st2 →
        st2.tempo_changes = st.tempo_changes := by
      intro st2 h2
      unfold decodeBarTok at h2
      repeat' (first | (split at h2) | (simp only [] at h2))
      all_goals (try (cases h2))
      all_goals (try simp)
    have hposl : ∀ s1 st2, decodePositionTok cfg td si st tok s1 = some st2 →
        st2.tempo_changes = st.tempo_changes := by
      intro s1 st2 h2
      unfold decodePositionTok at h2
      repeat' (first | (split at h2) | (simp only [] at h2))
      all_goals (try (cases h2))
      all_goals (try simp_all)
    have hrest : ∀ st2, decodeRestTok cfg td st tok = some st2 →
        st2.tempo_changes = st.tempo_changes := by
      intro st2 h2
      unfold decodeRestTok at h2
      repeat' (first | (split at h2) | (simp only [] at h2))
      all_goals (try (cases h2))
      all_goals (try simp)
    unfold decodeToken at h
    simp only [] at h
    by_cases hn : famOfTok tok = "Note"
    · rw [if_pos hn] at h
      exact hnote st' h
    · rw [if_neg hn] at h
      by_cases hm : famOfTok tok = "Metric"
      · rw [if_pos hm] at h
        cases hg : tok.slots.get? 1 with
        | none => rw [hg] at h; cases h
        | some s1 =>
          rw [hg] at h
          simp only [] at h
          cases hinner : (if s1.ty = "Bar" then decodeBarTok cfg td si st tok
              else
                if s1.ty = "Position" then
                  decodePositionTok cfg td si st tok s1
                else decodeRestTok cfg td st tok) with
          | none => rw [hinner] at h; cases h
          | some st2 =>
            rw [hinner] at h
            simp only [] at h
            injection h with h
            subst h
            have : st2.tempo_changes = st.tempo_changes := by
              split at hinner
              · exact hbar st2 hinner
              · split at hinner
                · exact hposl s1 st2 hinner
                · exact hrest st2 hinner
            simpa using this
      · rw [if_neg hm] at h
        injection h with h
        subst h
        rfl

/-- The state after decoding one tempo-100 Position token of sequence 0 from
the initial decoding state. -/
def stT2 : DecState :=
  ((decodePositionTok cfgT 480 0 decInit
      (mkPositionToken cfgT 0 0 none (some 100)) ⟨"Position", Val.vInt 0⟩).getD
    decInit)

/-- Witness for C5's amended theorem: a first-sequence Position token whose
tempo 100 differs from the mocked initial tempo at a differing tick is
registered, and a second-sequence token leaves the list unchanged. -/
theorem tempo_registration_condition_witness :
    (stT2.tempo_changes =
        (if (100 : Rat) ≠ (decInit.tempo_changes.getLastD ⟨TEMPO, -1⟩).tempo
            ∧ decInit.tick_at_current_bar
                + 0 * Int.fdiv 480 (cfgT.beat_res_max : Int)
              ≠ (decInit.tempo_changes.getLastD ⟨TEMPO, -1⟩).time then
          decInit.tempo_changes
            ++ [⟨100, decInit.tick_at_current_bar
                + 0 * Int.fdiv 480 (cfgT.beat_res_max : Int)⟩]
        else decInit.tempo_changes))
      ∧ stT2.tempo_changes = decInit.tempo_changes ++ [⟨100, 0⟩] :=
  ⟨tempo_registration_condition.1 cfgT 480 decInit
      (mkPositionToken cfgT 0 0 none (some 100)) ⟨"Position", Val.vInt 0⟩
      0 100 5 ⟨"Tempo", Val.vRat 100⟩ stT2 (by decide) (by decide)
      (by decide) (by decide) (by decide) (by decide),
    by decide⟩

/-- Counterexample to C5 as stated: decoding `Position(0)@tempo100` then
`Position(0)@tempo110` in the first (and only) sequence registers only the
first change — the second Position token's tempo 110 differs from the last
recorded tempo 100, yet no change is registered because its `current_tick`
equals the last change's time. -/
theorem same_tick_tempo_not_registered :
    (tokensToMidi cfgT 480
          [[mkPositionToken cfgT 0 0 none (some 100),
            mkPositionToken cfgT 0 0 none (some 110)]] none).map
        (fun r => r.tempo_changes)
      = some [⟨100, 0⟩]
      ∧ (mkPositionToken cfgT 0 0 none (some 110)).slots.get? 5
        = some ⟨"Tempo", Val.vRat 110⟩
      ∧ (110 : Rat) ≠ 100 := by
  decide

/-! ## C6: Bar token emission in the segmenter -/

/-- The time signature carried by a compound token's TimeSig slot. -/
def getTSField (cfg : Config) (tok : CPTok) : Option (Nat × Nat) :=
  match vocabTypesIdx cfg "TimeSig" with
  | none => none
  | some idx =>
    match tok.slots.get? idx with
    | none => none
    | some s => tsOfVal s.val

lemma mkBarToken_fields (cfg : Config)
    (hts : cfg.use_time_signatures = true) (t : Int) (ts : Nat × Nat) :
    isBarTok (mkBarToken cfg t (some ts)) = true
      ∧ getTSField cfg (mkBarToken cfg t (some ts)) = some ts := by
  rcases cfg with ⟨p, c, r, tp, tsg, ots, lt, br, mr, prog, rst, tmp⟩
  simp only at hts
  subst hts
  cases p <;> cases c <;> cases r <;> cases tp <;>
    exact ⟨rfl, rfl⟩

/-- C6 (confirmed): when the Bar block of `_add_time_events` fires with
`nb_new_bars = n ≥ 1` (the event tick crossed `n` new bar boundaries),
exactly `n` Bar tokens are appended in order, each carrying the tracked time
signature, except that when the triggering event is itself a `TimeSig` change
the last one carries the event's new signature. -/
theorem bar_block_emission (cfg : Config) (st : EncState) (ev : Event)
    (hts : cfg.use_time_signatures = true) (hn : 1 ≤ barsToAdd st ev) :
    ∃ ts, (barBlock cfg st ev).all_events = st.all_events ++ ts
      ∧ ts.length = (barsToAdd st ev).toNat
      ∧ ∀ i (hi : i < ts.length),
        isBarTok (ts.get ⟨i, hi⟩) = true
          ∧ getTSField cfg (ts.get ⟨i, hi⟩)
            = some
              (if i = ts.length - 1 ∧ ev.type = "TimeSig" then
                (tsOfVal ev.value).getD TIME_SIGNATURE
              else st.current_time_sig) := by
  unfold barBlock
  rw [if_pos hn, if_pos hts]
  simp only []
  refine ⟨_, rfl, by rw [List.length_map, List.length_range], ?_⟩
  intro i hi
  rw [List.get_eq_getElem]
  simp only [List.getElem_map, List.getElem_range, List.length_map,
    List.length_range]
  by_cases hc : i = (barsToAdd st ev).toNat - 1 ∧ ev.type = "TimeSig"
  · rw [if_pos hc, if_pos hc]
    exact mkBarToken_fields cfg hts _ _
  · rw [if_neg hc, if_neg hc]
    exact mkBarToken_fields cfg hts _ _

/-- A configuration with time signatures enabled and every other optional
feature disabled. -/
def cfgTS : Config :=
  { use_programs := false, use_chords := false, use_rests := false,
    use_tempos := false, use_time_signatures := true,
    one_token_stream := false, log_tempos := false, beat_res_max := 8,
    min_rest := 480, programs := [0], rests := [], tempos := [] }

/-- Witness for C6 at the initial segmenter state and a `Pitch` event at tick
0, which crosses exactly one bar boundary. -/
theorem bar_block_emission_witness :
    ∃ ts, (barBlock cfgTS (encInit cfgTS 480 [])
          ⟨"Pitch", Val.vInt 60, 0, 480⟩).all_events
        = (encInit cfgTS 480 []).all_events ++ ts
      ∧ ts.length
        = (barsToAdd (encInit cfgTS 480 []) ⟨"Pitch", Val.vInt 60, 0, 480⟩).toNat
      ∧ ∀ i (hi : i < ts.length),
        isBarTok (ts.get ⟨i, hi⟩) = true
          ∧ getTSField cfgTS (ts.get ⟨i, hi⟩)
            = some
              (if i = ts.length - 1
                  ∧ (⟨"Pitch", Val.vInt 60, 0, 480⟩ : Event).type = "TimeSig"
                then
                  (tsOfVal (⟨"Pitch", Val.vInt 60, 0, 480⟩ : Event).value).getD
                    TIME_SIGNATURE
              else (encInit cfgTS 480 []).current_time_sig) :=
  bar_block_emission cfgTS (encInit cfgTS 480 [])
    ⟨"Pitch", Val.vInt 60, 0, 480⟩ (by decide) (by decide)

/-! ## C9: a trailing partial note is silently dropped -/

/-- An event list in which every `Pitch` event is followed by at least two
further events (its companions lie inside the list): the well-formed prefix
of a possibly truncated stream. -/
inductive Closed : List Event → Prop
  | nil : Closed []
  | consN {ev : Event} {rest : List Event} : ev.type ≠ "Pitch" →
      Closed rest → Closed (ev :: rest)
  | consP {ev : Event} {rest : List Event} : ev.type = "Pitch" →
      2 ≤ rest.length → Closed rest → Closed (ev :: rest)

lemma famOf_mkRestToken (cfg : Config) (t : Int) (v : Val) :
    famOfTok (mkRestToken cfg t v) = "Metric" := by
  rcases cfg with ⟨p, c, r, tp, tsg, ots, lt, br, mr, prog, rst, tmp⟩
  cases p <;> cases c <;> cases r <;> cases tp <;> cases tsg <;> rfl

lemma famOf_mkBarToken (cfg : Config) (t : Int) (tsa : Option (Nat × Nat)) :
    famOfTok (mkBarToken cfg t tsa) = "Metric" := by
  rcases cfg with ⟨p, c, r, tp, tsg, ots, lt, br, mr, prog, rst, tmp⟩
  cases tsa <;> cases p <;> cases c <;> cases r <;> cases tp <;> cases tsg <;>
    rfl

lemma famOf_mkPositionToken (cfg : Config) (t : Int) (pos : Int)
    (ch : Option Val) (tmpo : Option Rat) :
    famOfTok (mkPositionToken cfg t pos ch tmpo) = "Metric" := by
  rcases cfg with ⟨p, c, r, tp, tsg, ots, lt, br, mr, prog, rst, tmp⟩
  cases ch <;> cases tmpo <;> cases p <;> cases c <;> cases r <;> cases tp <;>
    cases tsg <;> rfl

lemma restFold_metric (cfg : Config) (rv : List (Dur × Int)) :
    ∀ (acc : List CPTok × Int),
      (∀ tok ∈ acc.1, famOfTok tok = "Metric") →
      ∀ tok ∈ (rv.foldl
          (fun (acc : List CPTok × Int) p =>
            (acc.1 ++ [mkRestToken cfg acc.2 (Val.vDur p.1.1 p.1.2.1 p.1.2.2)],
              acc.2 + p.2))
          acc).1,
        famOfTok tok = "Metric" := by
  induction rv with
  | nil => intro acc hacc tok htok; exact hacc tok htok
  | cons hd tl ih =>
    intro acc hacc tok htok
    refine ih _ ?_ tok htok
    intro tok2 htok2
    rcases List.mem_append.mp htok2 with hl | hr
    · exact hacc tok2 hl
    · rcases List.mem_singleton.mp hr with rfl
      exact famOf_mkRestToken cfg _ _

lemma restBlock_appends (cfg : Config) (td : Int) (ev : Event)
    (st : EncState) :
    ∃ ts, (restBlock cfg td ev st).all_events = st.all_events ++ ts
      ∧ ∀ tok ∈ ts, famOfTok tok = "Metric" := by
  unfold restBlock
  split
  · simp only []
    have hmem := restFold_metric cfg (ticksToRestTokens cfg td
        (ev.time - st.previous_note_end)) ([], st.previous_note_end)
        (by intro tok h; cases h)
    split
    · exact ⟨_, by simp, hmem⟩
    · exact ⟨_, by simp, hmem⟩
  · exact ⟨[], by simp, by intro tok h; cases h⟩

lemma barBlock_appends (cfg : Config) (st : EncState) (ev : Event) :
    ∃ ts, (barBlock cfg st ev).all_events = st.all_events ++ ts
      ∧ ∀ tok ∈ ts, famOfTok tok = "Metric" := by
  unfold barBlock
  simp only []
  by_cases hn : 1 ≤ barsToAdd st ev
  · rw [if_pos hn]
    refine ⟨_, rfl, ?_⟩
    intro tok htok
    rcases List.mem_map.mp htok with ⟨i, _, rfl⟩
    exact famOf_mkBarToken cfg _ _
  · rw [if_neg hn]
    exact ⟨[], by simp, by intro tok h; cases h⟩

lemma positionBlock_appends (cfg : Config) (td : Int) (ev : Event)
    (st : EncState) :
    ∃ ts, (positionBlock cfg td ev st).all_events = st.all_events ++ ts
      ∧ ∀ tok ∈ ts, famOfTok tok = "Metric" := by
  unfold positionBlock
  split
  · refine ⟨_, rfl, ?_⟩
    intro tok htok
    rcases List.mem_singleton.mp htok with rfl
    exact famOf_mkPositionToken cfg _ _ _ _
  · exact ⟨[], by simp, by intro tok h; cases h⟩

lemma timeBlock_appends (cfg : Config) (td : Int) (ev : Event)
    (st : EncState) :
    ∃ ts, (timeBlock cfg td ev st).all_events = st.all_events ++ ts
      ∧ ∀ tok ∈ ts, famOfTok tok = "Metric" := by
  unfold timeBlock
  obtain ⟨t1, h1, m1⟩ := restBlock_appends cfg td ev st
  obtain ⟨t2, h2, m2⟩ := barBlock_appends cfg (restBlock cfg td ev st) ev
  obtain ⟨t3, h3, m3⟩ :=
    positionBlock_appends cfg td ev (barBlock cfg (restBlock cfg td ev st) ev)
  refine ⟨t1 ++ t2 ++ t3, ?_, ?_⟩
  · simp only []
    rw [h3, h2, h1]
    simp [List.append_assoc]
  · intro tok htok
    rcases List.mem_append.mp htok with h12 | h3m
    · rcases List.mem_append.mp h12 with ha | hb
      · exact m1 tok ha
      · exact m2 tok hb
    · exact m3 tok h3m

lemma tsUpdate_all_events (td : Int) (ev : Event) (st : EncState) :
    (tsUpdate td ev st).all_events = st.all_events := rfl

lemma noteBlock_no_note (cfg : Config) (ev : Event) (comps : List Event)
    (st : EncState) (h : ev.type = "Pitch" → comps.length ≠ 2) :
    (noteBlock cfg ev comps st).all_events = st.all_events := by
  unfold noteBlock
  rw [if_neg (by intro hc; exact h hc.1 hc.2)]
  split <;> rfl

/-- The tokens appended by one segmenter step for an event whose Note
emission cannot fire are all `Metric`-family tokens. -/
lemma stepOne_no_note (cfg : Config) (td : Int) (ev : Event)
    (comps : List Event) (st : EncState)
    (h : ev.type = "Pitch" → comps.length ≠ 2) :
    ∃ ts, (stepOne cfg td ev comps st).all_events = st.all_events ++ ts
      ∧ ∀ tok ∈ ts, famOfTok tok = "Metric" := by
  unfold stepOne
  simp only []
  split
  · exact ⟨[], by split <;> simp, by intro tok hc; cases hc⟩
  · set st1 : EncState :=
      if ev.type = "Tempo" then
        { st with current_tempo := (ratOfVal ev.value).getD st.current_tempo }
      else st with hst1
    have hst1ae : st1.all_events = st.all_events := by
      rw [hst1]
      split <;> rfl
    set st2 : EncState :=
      if ev.time ≠ st1.previous_tick then timeBlock cfg td ev st1 else st1
      with hst2
    have hst2ae : ∃ ts, st2.all_events = st1.all_events ++ ts
        ∧ ∀ tok ∈ ts, famOfTok tok = "Metric" := by
      rw [hst2]
      split
      · exact timeBlock_appends cfg td ev st1
      · exact ⟨[], by simp, by intro tok hc; cases hc⟩
    obtain ⟨t2, h2, m2⟩ := hst2ae
    set st3 : EncState :=
      if ev.type = "TimeSig" then tsUpdate td ev st2 else st2 with hst3
    have hst3ae : st3.all_events = st2.all_events := by
      rw [hst3]
      split <;> rfl
    refine ⟨t2, ?_, m2⟩
    rw [noteBlock_no_note cfg ev comps st3 h, hst3ae, h2, hst1ae]

lemma scanTS_append_pitch (cfg_p : Event) (r2 : List Event)
    (hp : cfg_p.type = "Pitch") :
    ∀ es, scanTS (es ++ cfg_p :: r2) = scanTS es := by
  intro es
  induction es with
  | nil => simp [scanTS, hp]
  | cons hd tl ih =>
    simp only [List.cons_append, scanTS]
    split_ifs <;> simp [ih]

lemma scanTempo_append_pitch (cfg_p : Event) (r2 : List Event)
    (hp : cfg_p.type = "Pitch") :
    ∀ es, scanTempo (es ++ cfg_p :: r2) = scanTempo es := by
  intro es
  induction es with
  | nil => simp [scanTempo, hp]
  | cons hd tl ih =>
    simp only [List.cons_append, scanTempo]
    split_ifs <;> simp [ih]

lemma encInit_append_pitch (cfg : Config) (td : Int) (es : List Event)
    (p : Event) (r2 : List Event) (hp : p.type = "Pitch") :
    encInit cfg td (es ++ p :: r2) = encInit cfg td es := by
  unfold encInit
  rw [scanTS_append_pitch p r2 hp es, scanTempo_append_pitch p r2 hp es]

lemma noteBlock_comps_irrel (cfg : Config) (ev : Event)
    (c1 c2 : List Event) (st : EncState) (h : ev.type ≠ "Pitch") :
    noteBlock cfg ev c1 st = noteBlock cfg ev c2 st := by
  unfold noteBlock
  have h1 : ¬(ev.type = "Pitch" ∧ c1.length = 2) := fun hc => h hc.1
  have h2 : ¬(ev.type = "Pitch" ∧ c2.length = 2) := fun hc => h hc.1
  rw [if_neg h1, if_neg h2]

lemma stepOne_comps_irrel (cfg : Config) (td : Int) (ev : Event)
    (c1 c2 : List Event) (st : EncState) (h : ev.type ≠ "Pitch") :
    stepOne cfg td ev c1 st = stepOne cfg td ev c2 st := by
  unfold stepOne
  have hnb : ∀ st2, noteBlock cfg ev c1 st2 = noteBlock cfg ev c2 st2 :=
    fun st2 => noteBlock_comps_irrel cfg ev c1 c2 st2 h
  simp only [hnb]

lemma take_two_append {α : Type} (l t : List α) (h : 2 ≤ l.length) :
    (l ++ t).take 2 = l.take 2 := by
  match l, h with
  | a :: b :: rest, _ => simp

/-- The segmenter loop distributes over appending to a closed prefix. -/
lemma encodeEvents_append_closed (cfg : Config) (td : Int)
    {es : List Event} (hclosed : Closed es) (tail : List Event) :
    ∀ st, encodeEvents cfg td (es ++ tail) st
      = encodeEvents cfg td tail (encodeEvents cfg td es st) := by
  induction hclosed with
  | nil => intro st; rfl
  | @consN ev rest hne hcl ih =>
    intro st
    simp only [List.cons_append, encodeEvents, List.append_eq]
    rw [stepOne_comps_irrel cfg td ev ((rest ++ tail).take 2) (rest.take 2)
      st hne]
    exact ih _
  | @consP ev rest hpe hlen hcl ih =>
    intro st
    simp only [List.cons_append, encodeEvents, List.append_eq]
    rw [take_two_append rest tail hlen]
    exact ih _

/-- C9 (confirmed): when the stream ends in a truncated note — a final
`Pitch` event either last in the stream or followed only by its Velocity
companion — the segmenter output is the output for the closed prefix followed
by tokens none of which is a Note token (the partial note is silently
dropped; `_add_time_events` has no failure branch, so no error is raised),
and the tokens of all earlier events are unchanged. -/
theorem trailing_pitch_dropped (cfg : Config) (td : Int) (es tail : List Event)
    (p : Event) (hclosed : Closed es) (hp : p.type = "Pitch")
    (htail : tail = [p] ∨ ∃ v, tail = [p, v]) :
    ∃ ts, addTimeEvents cfg td (es ++ tail) = addTimeEvents cfg td es ++ ts
      ∧ ∀ tok ∈ ts, famOfTok tok ≠ "Note" := by
  have hinit : encInit cfg td (es ++ tail) = encInit cfg td es := by
    rcases htail with rfl | ⟨v, rfl⟩
    · exact encInit_append_pitch cfg td es p [] hp
    · exact encInit_append_pitch cfg td es p [v] hp
  unfold addTimeEvents
  rw [hinit, encodeEvents_append_closed cfg td hclosed tail]
  set stMid := encodeEvents cfg td es (encInit cfg td es) with hstMid
  rcases htail with rfl | ⟨v, rfl⟩
  · obtain ⟨ts, hts, hm⟩ := stepOne_no_note cfg td p [] stMid
      (fun _ => by simp)
    refine ⟨ts, ?_, ?_⟩
    · simpa [encodeEvents] using hts
    · intro tok htok
      rw [hm tok htok]
      decide
  · have htake : List.take 2 [v] = [v] := rfl
    obtain ⟨t1, ht1, hm1⟩ :=
      stepOne_no_note cfg td p [v] stMid (fun _ => by simp)
    obtain ⟨t2, ht2, hm2⟩ :=
      stepOne_no_note cfg td v [] (stepOne cfg td p [v] stMid)
        (fun _ => by simp)
    refine ⟨t1 ++ t2, ?_, ?_⟩
    · simp only [encodeEvents, htake, List.take_nil]
      rw [ht2, ht1]
      simp [List.append_assoc]
    · intro tok htok
      rcases List.mem_append.mp htok with ha | hb
      · rw [hm1 tok ha]; decide
      · rw [hm2 tok hb]; decide

/-- Witness for C9: one complete note triplet followed by a lone trailing
`Pitch` event. -/
theorem trailing_pitch_dropped_witness :
    ∃ ts, addTimeEvents cfg0 480
          ([⟨"Pitch", Val.vInt 60, 0, 480⟩, ⟨"Velocity", Val.vInt 100, 0, 0⟩,
            ⟨"Duration", Val.vDur 1 0 8, 0, 0⟩]
            ++ [⟨"Pitch", Val.vInt 64, 480, 960⟩])
        = addTimeEvents cfg0 480
            [⟨"Pitch", Val.vInt 60, 0, 480⟩, ⟨"Velocity", Val.vInt 100, 0, 0⟩,
              ⟨"Duration", Val.vDur 1 0 8, 0, 0⟩] ++ ts
      ∧ ∀ tok ∈ ts, famOfTok tok ≠ "Note" :=
  trailing_pitch_dropped cfg0 480
    [⟨"Pitch", Val.vInt 60, 0, 480⟩, ⟨"Velocity", Val.vInt 100, 0, 0⟩,
      ⟨"Duration", Val.vDur 1 0 8, 0, 0⟩]
    [⟨"Pitch", Val.vInt 64, 480, 960⟩] ⟨"Pitch", Val.vInt 64, 480, 960⟩
    (Closed.consP (by decide) (by decide)
      (Closed.consN (by decide) (Closed.consN (by decide) Closed.nil)))
    (by decide) (Or.inl rfl)

/-! ## C4: a two-bar silent gap encoded with rests -/

/-- A configuration with rests enabled (whole / half / one-beat rests, the
smallest giving `min_rest = 480` ticks) and every other optional feature
disabled. -/
def cfgR : Config :=
  { use_programs := false, use_chords := false, use_rests := true,
    use_tempos := false, use_time_signatures := false,
    one_token_stream := false, log_tempos := false, beat_res_max := 8,
    min_rest := 480, programs := [0],
    rests := [(4, 0, 1), (2, 0, 1), (1, 0, 1)], tempos := [] }

/-- The note-triplet events of one note (`Pitch`, `Velocity`, `Duration` at
one tick, with the `Pitch` `desc` carrying the note end). -/
def tripEvents (td : Int) (p v : Int) (d : Dur) (t : Int) : List Event :=
  [⟨"Pitch", Val.vInt p, t, t + tokenDurationToTicks d td⟩,
    ⟨"Velocity", Val.vInt v, t, 0⟩,
    ⟨"Duration", Val.vDur d.1 d.2.1 d.2.2, t, 0⟩]

/-- C4's input: a one-bar note at tick 0, then two full bars of silence
(ticks 1920 to 5760), then a second note at tick 5760. -/
def gapEvents (p1 v1 p2 v2 : Int) (d2 : Dur) : List Event :=
  tripEvents 480 p1 v1 (4, 0, 1) 0 ++ tripEvents 480 p2 v2 d2 5760

/-- The tick value of the Rest slot of a token (0 for non-Rest tokens). -/
def restTicksOf (cfg : Config) (td : Int) (tok : CPTok) : Int :=
  match vocabTypesIdx cfg "Rest" with
  | none => 0
  | some idx =>
    match tok.slots.get? idx with
    | none => 0
    | some s =>
      match durOfVal s.val with
      | none => 0
      | some d => tokenDurationToTicks d td

/-- The decode state `tokens_to_midi` prepares before the token loop of a
first track under `cfgR` (default 4/4 seeding, `ticks_per_bar = 1920`). -/
def prepR : DecState :=
  { decInit with
    time_signature_changes := [⟨4, 4, 0⟩],
    current_time_sig := ⟨4, 4, 0⟩,
    ticks_per_bar := 1920 }

/-- C4 (confirmed): with rests enabled and `min_rest = 480` below the
3840-tick gap, the two-bar silent gap is encoded with exactly one leading Bar
token and zero Bar tokens across the gap, two Rest tokens whose decoded
durations sum to the gap `5760 - 1920 = 3840`; after the gap the segmenter's
bar bookkeeping matches the next event's tick (`current_bar = 3`,
`tick_at_current_bar = 5760`), and decoding the tokens up to the second
Position reaches exactly `current_tick = 5760` with the same bar
bookkeeping. -/
theorem rest_gap_scenario :
    addTimeEvents cfgR 480 (gapEvents 60 100 64 90 (1, 0, 8))
      = [mkBarToken cfgR 0 none,
          mkPositionToken cfgR 0 0 none none,
          mkNoteToken cfgR 0 (Val.vInt 60) (Val.vInt 100) (Val.vDur 4 0 1)
            none,
          mkRestToken cfgR 1920 (Val.vDur 4 0 1),
          mkRestToken cfgR 3840 (Val.vDur 4 0 1),
          mkPositionToken cfgR 5760 0 none none,
          mkNoteToken cfgR 5760 (Val.vInt 64) (Val.vInt 90)
            (Val.vDur 1 0 8) none]
      ∧ countBarToks (addTimeEvents cfgR 480 (gapEvents 60 100 64 90 (1, 0, 8)))
        = 1
      ∧ countBarToks
          ((addTimeEvents cfgR 480 (gapEvents 60 100 64 90 (1, 0, 8))).drop 3)
        = 0
      ∧ ((addTimeEvents cfgR 480 (gapEvents 60 100 64 90 (1, 0, 8))).map
            (restTicksOf cfgR 480)).sum = 5760 - 1920
      ∧ (encodeEvents cfgR 480 (gapEvents 60 100 64 90 (1, 0, 8))
            (encInit cfgR 480 (gapEvents 60 100 64 90 (1, 0, 8)))).current_bar
        = 3
      ∧ (encodeEvents cfgR 480 (gapEvents 60 100 64 90 (1, 0, 8))
            (encInit cfgR 480
              (gapEvents 60 100 64 90 (1, 0, 8)))).tick_at_current_bar
        = 5760
      ∧ (((addTimeEvents cfgR 480
              (gapEvents 60 100 64 90 (1, 0, 8))).take 6).foldlM
            (decodeToken cfgR 480 0) prepR).map
          (fun s => (s.current_tick, s.current_bar, s.tick_at_current_bar))
        = some (5760, 3, 5760) := by
  decide

/-! ## Note streams: shared infrastructure for the round-trip (C1) and
fresh-encode-validity (C2) claims -/

/-- One note of an input stream: the values its `Pitch` / `Velocity` /
`Duration` event triplet carries, and its start tick. -/
structure NoteSpec where
  pitch : Int
  velocity : Int
  dur : Dur
  time : Int
deriving DecidableEq, Repr

/-- The event stream of a list of notes: the concatenation of their
`Pitch, Velocity, Duration` triplets. -/
def eventsOfNotes (td : Int) : List NoteSpec → List Event
  | [] => []
  | n :: rest =>
    tripEvents td n.pitch n.velocity n.dur n.time ++ eventsOfNotes td rest

lemma eventsOfNotes_append (td : Int) (ns : List NoteSpec) (n : NoteSpec) :
    eventsOfNotes td (ns ++ [n])
      = eventsOfNotes td ns ++ tripEvents td n.pitch n.velocity n.dur n.time := by
  induction ns with
  | nil => simp [eventsOfNotes]
  | cons hd tl ih =>
    simp [eventsOfNotes, ih]

lemma closed_eventsOfNotes (td : Int) (ns : List NoteSpec) :
    Closed (eventsOfNotes td ns) := by
  induction ns with
  | nil => exact Closed.nil
  | cons hd tl ih =>
    refine Closed.consP rfl (by simp) ?_
    exact Closed.consN (by simp) (Closed.consN (by simp) ih)

/-- Times of the notes are non-negative, aligned to the sample grid, and
non-decreasing. -/
def NotesWF (tps : Int) (ns : List NoteSpec) : Prop :=
  (∀ n ∈ ns, 0 ≤ n.time ∧ tps ∣ n.time)
    ∧ List.Chain' (fun a b => a.time ≤ b.time) ns

/-- Start tick of the last note (`-1` for the empty stream, the segmenter's
initial `previous_tick`). -/
def lastTime : List NoteSpec → Int
  | [] => -1
  | [n] => n.time
  | _ :: rest => lastTime rest

lemma lastTime_append (ns : List NoteSpec) (n : NoteSpec) :
    lastTime (ns ++ [n]) = n.time := by
  induction ns with
  | nil => rfl
  | cons hd tl ih =>
    cases tl with
    | nil => simpa using ih
    | cons h2 t2 => simpa using ih

lemma notesWF_append {tps : Int} {ns : List NoteSpec} {n : NoteSpec}
    (h : NotesWF tps (ns ++ [n])) :
    NotesWF tps ns ∧ 0 ≤ n.time ∧ tps ∣ n.time
      ∧ lastTime ns ≤ n.time := by
  obtain ⟨hmem, hchain⟩ := h
  rw [List.chain'_append] at hchain
  obtain ⟨hc1, _, hlast⟩ := hchain
  refine ⟨⟨fun m hm => hmem m (List.mem_append_left _ hm), hc1⟩,
    (hmem n (by simp)).1, (hmem n (by simp)).2, ?_⟩
  cases hns : ns.getLast? with
  | none =>
    rw [List.getLast?_eq_none_iff] at hns
    subst hns
    have := (hmem n (by simp)).1
    simp only [lastTime]
    omega
  | some m =>
    have hm := hlast m hns n (by simp)
    have : lastTime ns = m.time := by
      clear hm hlast hmem hc1
      induction ns with
      | nil => cases hns
      | cons hd tl ih =>
        cases tl with
        | nil =>
          simp only [List.getLast?_singleton] at hns
          injection hns with hns
          subst hns
          rfl
        | cons h2 t2 =>
          have : (h2 :: t2).getLast? = some m := by
            rw [List.getLast?_cons_cons] at hns
            exact hns
          simp only [lastTime]
          exact ih this
    rw [this]
    exact hm

/-- The flag and resolution assumptions shared by the round-trip and
fresh-validity developments: every optional feature disabled, positive beat
resolution, positive tick-per-sample grid. -/
structure BaseSetup (cfg : Config) (tps : Int) : Prop where
  hp : cfg.use_programs = false
  hc : cfg.use_chords = false
  hr : cfg.use_rests = false
  ht : cfg.use_tempos = false
  hts : cfg.use_time_signatures = false
  hots : cfg.one_token_stream = false
  hpl : cfg.programs = [0]
  hbr : 0 < (cfg.beat_res_max : Int)
  htps : 0 < tps

/-- Time division compatible with the sample grid: `br * tps` ticks per
beat. -/
def tdOf (cfg : Config) (tps : Int) : Int := (cfg.beat_res_max : Int) * tps

/-- Ticks per 4/4 bar at that time division. -/
def tpbOf (cfg : Config) (tps : Int) : Int := 4 * tdOf cfg tps

/-- The Position grid index the segmenter computes for an aligned tick
`t` (`int((t - tick_at_current_bar) / ticks_per_sample)` with
`tick_at_current_bar = (t fdiv tpb) * tpb`). -/
def posIndexOf (cfg : Config) (tps t : Int) : Int :=
  ((t - Int.fdiv t (tpbOf cfg tps) * tpbOf cfg tps) * (cfg.beat_res_max : Int)).tdiv
    (tdOf cfg tps)

/-- `k` Bar tokens as the Bar block emits them from bar `cb` (signature-less:
time signatures disabled). -/
def barToksOf (cfg : Config) (tpb cb : Int) (k : Nat) : List CPTok :=
  (List.range k).map
    (fun (i : Nat) => mkBarToken cfg ((cb + (i : Int) + 1) * tpb) none)

/-- The Note token of a note under a program-less configuration. -/
def noteTokOf (cfg : Config) (t p v : Int) (d : Dur) : CPTok :=
  mkNoteToken cfg t (Val.vInt p) (Val.vInt v) (Val.vDur d.1 d.2.1 d.2.2) none

lemma computeTicksPerBar_default (cfg : Config) (tps : Int) :
    computeTicksPerBar TIME_SIGNATURE (tdOf cfg tps) = tpbOf cfg tps := by
  unfold computeTicksPerBar TIME_SIGNATURE tpbOf
  show Int.fdiv (tdOf cfg tps * 4 * 4) 4 = 4 * tdOf cfg tps
  have : tdOf cfg tps * 4 * 4 = (4 * tdOf cfg tps) * 4 := by ring
  rw [this, Int.mul_fdiv_cancel _ (by norm_num)]

lemma slot1_mkBarToken (cfg : Config) (t : Int) :
    (mkBarToken cfg t none).slots.get? 1 = some ⟨"Bar", Val.vNone⟩ := by
  rcases cfg with ⟨p, c, r, tp, tsg, ots, lt, br, mr, prog, rst, tmp⟩
  cases p <;> cases c <;> cases r <;> cases tp <;> cases tsg <;> rfl

lemma slot1_mkPositionToken (cfg : Config) (t m : Int) :
    (mkPositionToken cfg t m none none).slots.get? 1
      = some ⟨"Position", Val.vInt m⟩ := by
  rcases cfg with ⟨p, c, r, tp, tsg, ots, lt, br, mr, prog, rst, tmp⟩
  cases p <;> cases c <;> cases r <;> cases tp <;> cases tsg <;> rfl

lemma famOf_noteTokOf (cfg : Config) (t p v : Int) (d : Dur) :
    famOfTok (noteTokOf cfg t p v d) = "Note" := by
  rcases cfg with ⟨pc, c, r, tp, tsg, ots, lt, br, mr, prog, rst, tmp⟩
  cases pc <;> cases c <;> cases r <;> cases tp <;> cases tsg <;> rfl

set_option maxHeartbeats 1600000 in
lemma slots_noteTokOf (cfg : Config) (t p v : Int) (d : Dur) :
    (noteTokOf cfg t p v d).slots.get? 2 = some ⟨"Pitch", Val.vInt p⟩
      ∧ (noteTokOf cfg t p v d).slots.get? 3
        = some ⟨"Velocity", Val.vInt v⟩
      ∧ (noteTokOf cfg t p v d).slots.get? 4
        = some ⟨"Duration", Val.vDur d.1 d.2.1 d.2.2⟩
      ∧ ((noteTokOf cfg t p v d).slots.drop 2).take 3
        = [⟨"Pitch", Val.vInt p⟩, ⟨"Velocity", Val.vInt v⟩,
            ⟨"Duration", Val.vDur d.1 d.2.1 d.2.2⟩] := by
  rcases cfg with ⟨pc, c, r, tp, tsg, ots, lt, br, mr, prog, rst, tmp⟩
  cases pc <;> cases c <;> cases r <;> cases tp <;> cases tsg <;>
    exact ⟨rfl, rfl, rfl, rfl⟩

lemma cpTokenType_barTok (cfg : Config) (t : Int) :
    cpTokenType cfg (mkBarToken cfg t none) = some ("Bar", Val.vNone) := by
  rcases cfg with ⟨p, c, r, tp, tsg, ots, lt, br, mr, prog, rst, tmp⟩
  cases p <;> cases c <;> cases r <;> cases tp <;> cases tsg <;> rfl

lemma cpTokenType_posTok (cfg : Config) (t m : Int) :
    cpTokenType cfg (mkPositionToken cfg t m none none)
      = some ("Position", Val.vInt m) := by
  rcases cfg with ⟨p, c, r, tp, tsg, ots, lt, br, mr, prog, rst, tmp⟩
  cases p <;> cases c <;> cases r <;> cases tp <;> cases tsg <;> rfl

lemma cpTokenType_noteTok (cfg : Config) (t p v : Int) (d : Dur) :
    cpTokenType cfg (noteTokOf cfg t p v d) = some ("Pitch", Val.vInt p) := by
  rcases cfg with ⟨pc, c, r, tp, tsg, ots, lt, br, mr, prog, rst, tmp⟩
  cases pc <;> cases c <;> cases r <;> cases tp <;> cases tsg <;> rfl

lemma fdiv_le_self_mul {t b : Int} (hb : 0 < b) :
    Int.fdiv t b * b ≤ t ∧ t < Int.fdiv t b * b + b := by
  rw [Int.fdiv_eq_ediv _ (le_of_lt hb)]
  constructor
  · exact Int.ediv_mul_le t (ne_of_gt hb)
  · have h1 := Int.emod_lt_of_pos t hb
    have h2 := Int.ediv_add_emod t b
    have h3 : t / b * b = b * (t / b) := Int.mul_comm _ _
    omega

lemma fdiv_mono_num {x y b : Int} (hb : 0 < b) (h : x ≤ y) :
    Int.fdiv x b ≤ Int.fdiv y b := by
  rw [Int.fdiv_eq_ediv _ (le_of_lt hb), Int.fdiv_eq_ediv _ (le_of_lt hb)]
  exact Int.ediv_le_ediv hb h

lemma fdiv_nonneg_of_nonneg {t b : Int} (hb : 0 < b) (ht : 0 ≤ t) :
    0 ≤ Int.fdiv t b := by
  rw [Int.fdiv_eq_ediv _ (le_of_lt hb)]
  exact Int.ediv_nonneg ht (le_of_lt hb)

lemma fdiv_unique {t b q : Int} (hb : 0 < b) (h1 : q * b ≤ t)
    (h2 : t < q * b + b) : Int.fdiv t b = q := by
  have hle : q ≤ Int.fdiv t b := by
    have := fdiv_mono_num hb h1
    rwa [Int.mul_fdiv_cancel q (ne_of_gt hb)] at this
  have hlt : Int.fdiv t b < q + 1 := by
    by_contra hcon
    push_neg at hcon
    have := (fdiv_le_self_mul (t := t) hb).1
    nlinarith
  omega

lemma restBlock_off (cfg : Config) (td : Int) (ev : Event) (st : EncState)
    (hr : cfg.use_rests = false) : restBlock cfg td ev st = st := by
  unfold restBlock
  rw [if_neg]
  intro hcon
  rw [hr] at hcon
  exact absurd hcon.1 (by simp)

lemma stepOne_inert (cfg : Config) (td : Int) (ev : Event)
    (comps : List Event) (st : EncState)
    (hty : ev.type = "Velocity" ∨ ev.type = "Duration")
    (htime : ev.time = st.previous_tick) :
    stepOne cfg td ev comps st = st := by
  rcases hty with h | h <;>
    · unfold stepOne noteBlock
      rw [h]
      simp [htime]

lemma enc_trip_same (cfg : Config) (td : Int) (st : EncState) (p v : Int)
    (d : Dur) (t : Int) (hT : st.previous_tick = t)
    (hprog : st.current_program = none) :
    encodeEvents cfg td (tripEvents td p v d t) st
      = { st with
          all_events := st.all_events ++ [noteTokOf cfg t p v d],
          previous_note_end :=
            max st.previous_note_end (t + tokenDurationToTicks d td) } := by
  have hstep1 :
      stepOne cfg td ⟨"Pitch", Val.vInt p, t, t + tokenDurationToTicks d td⟩
        [⟨"Velocity", Val.vInt v, t, 0⟩,
          ⟨"Duration", Val.vDur d.1 d.2.1 d.2.2, t, 0⟩] st
      = { st with
          all_events := st.all_events ++ [noteTokOf cfg t p v d],
          previous_note_end :=
            max st.previous_note_end (t + tokenDurationToTicks d td) } := by
    unfold stepOne
    rw [if_neg (by simp), if_neg (fun hcon => hcon hT.symm)]
    simp only []
    rw [if_neg (by simp)]
    unfold noteBlock
    rw [if_pos (by exact ⟨rfl, rfl⟩)]
    simp [noteTokOf, hprog]
  unfold tripEvents
  simp only [encodeEvents, List.take_succ_cons, List.take_zero, List.take_nil]
  rw [hstep1]
  generalize hG :
    ({ st with
        all_events := st.all_events ++ [noteTokOf cfg t p v d],
        previous_note_end :=
          max st.previous_note_end (t + tokenDurationToTicks d td) } :
      EncState) = S1
  have hS1pt : S1.previous_tick = t := by
    rw [← hG]
    exact hT
  rw [stepOne_inert cfg td _ _ S1 (Or.inl rfl) (by exact hS1pt.symm)]
  rw [stepOne_inert cfg td _ _ S1 (Or.inr rfl) (by exact hS1pt.symm)]

lemma tpbOf_pos (cfg : Config) (tps : Int) (hset : BaseSetup cfg tps) :
    0 < tpbOf cfg tps := by
  unfold tpbOf tdOf
  have h1 := hset.hbr
  have h2 := hset.htps
  nlinarith

lemma barBlock_pitch_new (cfg : Config) (tps : Int) (st : EncState)
    (ev : Event) (hty : ev.type = "Pitch")
    (hts : cfg.use_time_signatures = false)
    (hbal : st.bar_at_last_ts_change = 0)
    (htl : st.tick_at_last_ts_change = 0)
    (htpb : st.ticks_per_bar = tpbOf cfg tps)
    (h1 : 1 ≤ Int.fdiv ev.time (tpbOf cfg tps) - st.current_bar) :
    barBlock cfg st ev
      = { st with
          all_events := st.all_events
            ++ barToksOf cfg (tpbOf cfg tps) st.current_bar
                (Int.fdiv ev.time (tpbOf cfg tps) - st.current_bar).toNat,
          current_bar := Int.fdiv ev.time (tpbOf cfg tps),
          tick_at_current_bar :=
            Int.fdiv ev.time (tpbOf cfg tps) * tpbOf cfg tps } := by
  unfold barBlock barsToAdd
  rw [hbal, htl, htpb]
  simp only [zero_add, sub_zero]
  rw [if_pos h1]
  congr 1
  · congr 1
    unfold barToksOf
    apply List.map_congr_left
    intro i hi
    simp [hty, hts]
  · omega
  · have hq : st.current_bar
        + (Int.fdiv ev.time (tpbOf cfg tps) - st.current_bar)
        = Int.fdiv ev.time (tpbOf cfg tps) := by omega
    rw [hq]

lemma barBlock_pitch_same (cfg : Config) (tps : Int) (st : EncState)
    (ev : Event) (hbal : st.bar_at_last_ts_change = 0)
    (htl : st.tick_at_last_ts_change = 0)
    (htpb : st.ticks_per_bar = tpbOf cfg tps)
    (h0 : Int.fdiv ev.time (tpbOf cfg tps) - st.current_bar ≤ 0) :
    barBlock cfg st ev = st := by
  unfold barBlock barsToAdd
  rw [hbal, htl, htpb]
  simp only [zero_add, sub_zero]
  rw [if_neg (by omega)]

lemma positionBlock_pitch (cfg : Config) (td : Int) (ev : Event)
    (st : EncState) (hty : ev.type = "Pitch") (ht : cfg.use_tempos = false) :
    positionBlock cfg td ev st
      = { st with
          all_events := st.all_events
            ++ [mkPositionToken cfg ev.time
                (Int.tdiv
                  ((ev.time - st.tick_at_current_bar)
                    * (cfg.beat_res_max : Int)) td) none none] } := by
  unfold positionBlock
  rw [if_pos (by simp [hty])]
  simp [hty, ht]

lemma stepOne_pitch (cfg : Config) (td : Int) (ev : Event)
    (comps : List Event) (st : EncState) (hty : ev.type = "Pitch")
    (hT : ev.time ≠ st.previous_tick) :
    stepOne cfg td ev comps st
      = noteBlock cfg ev comps (timeBlock cfg td ev st) := by
  unfold stepOne
  rw [hty]
  simp [hT]

lemma enc_trip_new (cfg : Config) (tps : Int) (hset : BaseSetup cfg tps)
    (st : EncState) (p v : Int) (d : Dur) (t : Int)
    (hT : st.previous_tick ≠ t)
    (hbal : st.bar_at_last_ts_change = 0)
    (htl : st.tick_at_last_ts_change = 0)
    (htpb : st.ticks_per_bar = tpbOf cfg tps)
    (hprog : st.current_program = none)
    (hcb : st.current_bar ≤ Int.fdiv t (tpbOf cfg tps))
    (hor : st.current_bar < Int.fdiv t (tpbOf cfg tps)
      ∨ st.tick_at_current_bar
          = Int.fdiv t (tpbOf cfg tps) * tpbOf cfg tps) :
    encodeEvents cfg (tdOf cfg tps) (tripEvents (tdOf cfg tps) p v d t) st
      = { st with
          all_events := st.all_events
            ++ barToksOf cfg (tpbOf cfg tps) st.current_bar
                (Int.fdiv t (tpbOf cfg tps) - st.current_bar).toNat
            ++ [mkPositionToken cfg t (posIndexOf cfg tps t) none none,
                noteTokOf cfg t p v d],
          current_bar := Int.fdiv t (tpbOf cfg tps),
          tick_at_current_bar :=
            Int.fdiv t (tpbOf cfg tps) * tpbOf cfg tps,
          previous_tick := t,
          previous_note_end :=
            max st.previous_note_end
              (t + tokenDurationToTicks d (tdOf cfg tps)) } := by
  have hstep1 :
      stepOne cfg (tdOf cfg tps)
        ⟨"Pitch", Val.vInt p, t, t + tokenDurationToTicks d (tdOf cfg tps)⟩
        [⟨"Velocity", Val.vInt v, t, 0⟩,
          ⟨"Duration", Val.vDur d.1 d.2.1 d.2.2, t, 0⟩] st
      = { st with
          all_events := st.all_events
            ++ barToksOf cfg (tpbOf cfg tps) st.current_bar
                (Int.fdiv t (tpbOf cfg tps) - st.current_bar).toNat
            ++ [mkPositionToken cfg t (posIndexOf cfg tps t) none none,
                noteTokOf cfg t p v d],
          current_bar := Int.fdiv t (tpbOf cfg tps),
          tick_at_current_bar :=
            Int.fdiv t (tpbOf cfg tps) * tpbOf cfg tps,
          previous_tick := t,
          previous_note_end :=
            max st.previous_note_end
              (t + tokenDurationToTicks d (tdOf cfg tps)) } := by
    rw [stepOne_pitch cfg (tdOf cfg tps) _ _ st rfl
      (fun hcon => hT hcon.symm)]
    rw [show timeBlock cfg (tdOf cfg tps)
        ⟨"Pitch", Val.vInt p, t, t + tokenDurationToTicks d (tdOf cfg tps)⟩ st
      = { positionBlock cfg (tdOf cfg tps)
            ⟨"Pitch", Val.vInt p, t,
              t + tokenDurationToTicks d (tdOf cfg tps)⟩
            (barBlock cfg
              (restBlock cfg (tdOf cfg tps)
                ⟨"Pitch", Val.vInt p, t,
                  t + tokenDurationToTicks d (tdOf cfg tps)⟩ st)
              ⟨"Pitch", Val.vInt p, t,
                t + tokenDurationToTicks d (tdOf cfg tps)⟩) with
          previous_tick := t } from rfl]
    rw [restBlock_off cfg (tdOf cfg tps) _ st hset.hr]
    by_cases hk : 1 ≤ Int.fdiv t (tpbOf cfg tps) - st.current_bar
    · rw [barBlock_pitch_new cfg tps st _ rfl hset.hts hbal htl htpb hk]
      rw [positionBlock_pitch cfg (tdOf cfg tps) _ _ rfl hset.ht]
      unfold noteBlock
      rw [if_pos (by exact ⟨rfl, rfl⟩)]
      simp [noteTokOf, posIndexOf, hprog, List.append_assoc]
    · have hq : Int.fdiv t (tpbOf cfg tps) = st.current_bar := by omega
      have htacb : st.tick_at_current_bar
          = Int.fdiv t (tpbOf cfg tps) * tpbOf cfg tps := by
        rcases hor with h | h
        · omega
        · exact h
      rw [barBlock_pitch_same cfg tps st _ hbal htl htpb
        (by show Int.fdiv t (tpbOf cfg tps) - st.current_bar ≤ 0; omega)]
      rw [positionBlock_pitch cfg (tdOf cfg tps) _ _ rfl hset.ht]
      unfold noteBlock
      rw [if_pos (by exact ⟨rfl, rfl⟩)]
      have hk0 : (Int.fdiv t (tpbOf cfg tps) - st.current_bar).toNat = 0 := by
        omega
      rw [hk0]
      simp [noteTokOf, posIndexOf, hprog, barToksOf, hq, htacb]
  unfold tripEvents
  simp only [encodeEvents, List.take_succ_cons, List.take_zero, List.take_nil]
  rw [hstep1]
  generalize hG :
    ({ st with
        all_events := st.all_events
          ++ barToksOf cfg (tpbOf cfg tps) st.current_bar
              (Int.fdiv t (tpbOf cfg tps) - st.current_bar).toNat
          ++ [mkPositionToken cfg t (posIndexOf cfg tps t) none none,
              noteTokOf cfg t p v d],
        current_bar := Int.fdiv t (tpbOf cfg tps),
        tick_at_current_bar :=
          Int.fdiv t (tpbOf cfg tps) * tpbOf cfg tps,
        previous_tick := t,
        previous_note_end :=
          max st.previous_note_end
            (t + tokenDurationToTicks d (tdOf cfg tps)) } :
      EncState) = S1
  have hS1pt : S1.previous_tick = t := by
    rw [← hG]
  rw [stepOne_inert cfg (tdOf cfg tps) _ _ S1 (Or.inl rfl)
    (by exact hS1pt.symm)]
  rw [stepOne_inert cfg (tdOf cfg tps) _ _ S1 (Or.inr rfl)
    (by exact hS1pt.symm)]

/-- The token stream the segmenter is expected to emit for a note list,
carrying the `(current_bar, previous_tick)` accumulator of the Grid State:
a note at a fresh tick brings the missing Bar tokens and one Position token
before its Note token, a note at the same tick only its Note token. -/
def expToks (cfg : Config) (tps : Int) :
    List NoteSpec → Int → Int → List CPTok
  | [], _, _ => []
  | n :: rest, cb, pt =>
    if n.time = pt then
      noteTokOf cfg n.time n.pitch n.velocity n.dur
        :: expToks cfg tps rest cb pt
    else
      barToksOf cfg (tpbOf cfg tps) cb
          (Int.fdiv n.time (tpbOf cfg tps) - cb).toNat
        ++ mkPositionToken cfg n.time (posIndexOf cfg tps n.time) none none
        :: noteTokOf cfg n.time n.pitch n.velocity n.dur
        :: expToks cfg tps rest (Int.fdiv n.time (tpbOf cfg tps)) n.time

/-- The notes `tokens_to_midi` is expected to decode from a note list's fresh
encoding. -/
def decNotesOf (cfg : Config) (tps : Int) (ns : List NoteSpec) : List NoteR :=
  ns.map
    (fun n =>
      ⟨n.velocity, n.pitch, n.time,
        n.time + tokenDurationToTicks n.dur (tdOf cfg tps)⟩)

lemma closed_trip (td p v : Int) (d : Dur) (t : Int) :
    Closed (tripEvents td p v d t) :=
  Closed.consP rfl (by simp)
    (Closed.consN (by simp) (Closed.consN (by simp) Closed.nil))

/-- Encoder master: over a well-formed note stream the segmenter appends
exactly `expToks` to its output, from any state satisfying the Grid-State
invariant. -/
lemma enc_master (cfg : Config) (tps : Int) (hset : BaseSetup cfg tps) :
    ∀ (ns : List NoteSpec) (st : EncState),
      (∀ n ∈ ns, 0 ≤ n.time) →
      List.Pairwise (fun a b : NoteSpec => a.time ≤ b.time) ns →
      (∀ n ∈ ns, st.previous_tick ≤ n.time) →
      st.bar_at_last_ts_change = 0 →
      st.tick_at_last_ts_change = 0 →
      st.ticks_per_bar = tpbOf cfg tps →
      st.current_program = none →
      st.current_bar ≤ Int.fdiv st.previous_tick (tpbOf cfg tps) →
      (st.tick_at_current_bar = st.current_bar * tpbOf cfg tps
        ∨ (st.current_bar = -1 ∧ st.previous_tick < 0)) →
      (encodeEvents cfg (tdOf cfg tps) (eventsOfNotes (tdOf cfg tps) ns)
          st).all_events
        = st.all_events
          ++ expToks cfg tps ns st.current_bar st.previous_tick := by
  intro ns
  induction ns with
  | nil =>
    intro st _ _ _ _ _ _ _ _ _
    simp [eventsOfNotes, expToks, encodeEvents]
  | cons n rest ih =>
    intro st h0 hpw hpt hbal htl htpb hprog hcble hc
    rw [List.pairwise_cons] at hpw
    obtain ⟨hn, hpw'⟩ := hpw
    have htpb0 : 0 < tpbOf cfg tps := tpbOf_pos cfg tps hset
    rw [show eventsOfNotes (tdOf cfg tps) (n :: rest)
        = tripEvents (tdOf cfg tps) n.pitch n.velocity n.dur n.time
          ++ eventsOfNotes (tdOf cfg tps) rest from rfl]
    rw [encodeEvents_append_closed cfg (tdOf cfg tps)
      (closed_trip (tdOf cfg tps) n.pitch n.velocity n.dur n.time) _ st]
    by_cases hsame : n.time = st.previous_tick
    · rw [enc_trip_same cfg (tdOf cfg tps) st n.pitch n.velocity n.dur n.time
        hsame.symm hprog]
      rw [ih { st with
          all_events := st.all_events
            ++ [noteTokOf cfg n.time n.pitch n.velocity n.dur],
          previous_note_end :=
            max st.previous_note_end
              (n.time + tokenDurationToTicks n.dur (tdOf cfg tps)) }
        (fun m hm => h0 m (List.mem_cons_of_mem _ hm)) hpw'
        (fun m hm => hpt m (List.mem_cons_of_mem _ hm))
        hbal htl htpb hprog hcble hc]
      simp only [expToks]
      rw [if_pos hsame]
      simp [List.append_assoc]
    · have hT : st.previous_tick ≠ n.time := fun h => hsame h.symm
      have hcb : st.current_bar ≤ Int.fdiv n.time (tpbOf cfg tps) := by
        have h1 := fdiv_mono_num htpb0 (hpt n (List.mem_cons_self n rest))
        omega
      have hor : st.current_bar < Int.fdiv n.time (tpbOf cfg tps)
          ∨ st.tick_at_current_bar
              = Int.fdiv n.time (tpbOf cfg tps) * tpbOf cfg tps := by
        by_cases hlt : st.current_bar < Int.fdiv n.time (tpbOf cfg tps)
        · exact Or.inl hlt
        · have heq : st.current_bar = Int.fdiv n.time (tpbOf cfg tps) := by
            omega
          rcases hc with h | h
          · exact Or.inr (by rw [← heq, h])
          · exfalso
            have h2 : 0 ≤ Int.fdiv n.time (tpbOf cfg tps) :=
              fdiv_nonneg_of_nonneg htpb0 (h0 n (List.mem_cons_self n rest))
            omega
      rw [enc_trip_new cfg tps hset st n.pitch n.velocity n.dur n.time
        hT hbal htl htpb hprog hcb hor]
      rw [ih { st with
          all_events := st.all_events
            ++ barToksOf cfg (tpbOf cfg tps) st.current_bar
                (Int.fdiv n.time (tpbOf cfg tps) - st.current_bar).toNat
            ++ [mkPositionToken cfg n.time (posIndexOf cfg tps n.time) none
                  none,
                noteTokOf cfg n.time n.pitch n.velocity n.dur],
          current_bar := Int.fdiv n.time (tpbOf cfg tps),
          tick_at_current_bar :=
            Int.fdiv n.time (tpbOf cfg tps) * tpbOf cfg tps,
          previous_tick := n.time,
          previous_note_end :=
            max st.previous_note_end
              (n.time + tokenDurationToTicks n.dur (tdOf cfg tps)) }
        (fun m hm => h0 m (List.mem_cons_of_mem _ hm)) hpw'
        (fun m hm => hn m hm)
        hbal htl htpb hprog (le_of_eq rfl) (Or.inl rfl)]
      simp only [expToks]
      rw [if_neg hsame]
      simp [List.append_assoc]

lemma fdiv_neg_one {b : Int} (hb : 0 < b) : Int.fdiv (-1) b = -1 := by
  refine fdiv_unique hb ?_ ?_ <;> omega

/-- The fresh encoding of a well-formed note stream is exactly `expToks` from
the initial `(current_bar, previous_tick) = (-1, -1)` accumulator. -/
lemma addTimeEvents_notes (cfg : Config) (tps : Int) (hset : BaseSetup cfg tps)
    (ns : List NoteSpec) (h0 : ∀ n ∈ ns, 0 ≤ n.time)
    (hpw : List.Pairwise (fun a b : NoteSpec => a.time ≤ b.time) ns) :
    addTimeEvents cfg (tdOf cfg tps) (eventsOfNotes (tdOf cfg tps) ns)
      = expToks cfg tps ns (-1) (-1) := by
  have htpb0 := tpbOf_pos cfg tps hset
  have hfd : Int.fdiv (-1) (tpbOf cfg tps) = -1 := fdiv_neg_one htpb0
  unfold addTimeEvents
  have htpbi : (encInit cfg (tdOf cfg tps)
      (eventsOfNotes (tdOf cfg tps) ns)).ticks_per_bar = tpbOf cfg tps := by
    show computeTicksPerBar
        (if cfg.use_time_signatures then
          (scanTS (eventsOfNotes (tdOf cfg tps) ns)).getD TIME_SIGNATURE
        else TIME_SIGNATURE) (tdOf cfg tps) = tpbOf cfg tps
    rw [if_neg (by simp [hset.hts])]
    exact computeTicksPerBar_default cfg tps
  rw [enc_master cfg tps hset ns _ h0 hpw
    (fun n hn => by
      have := h0 n hn
      show (-1 : Int) ≤ n.time
      omega)
    rfl rfl htpbi rfl
    (by
      show (-1 : Int) ≤ Int.fdiv (-1) (tpbOf cfg tps)
      rw [hfd])
    (Or.inr ⟨rfl, by show (-1 : Int) < 0; omega⟩)]
  rfl

/-- The Position grid index of an aligned tick measures exactly the offset
from the bar start, in `tps`-tick samples; it is non-negative. -/
lemma posIndexOf_spec (cfg : Config) (tps : Int) (hset : BaseSetup cfg tps)
    (t : Int) (ht : tps ∣ t) :
    posIndexOf cfg tps t * tps
        = t - Int.fdiv t (tpbOf cfg tps) * tpbOf cfg tps
      ∧ 0 ≤ posIndexOf cfg tps t := by
  have htpb0 := tpbOf_pos cfg tps hset
  have hbr := hset.hbr
  have htps := hset.htps
  have hbnd := fdiv_le_self_mul (t := t) htpb0
  have hdvd : tps ∣ t - Int.fdiv t (tpbOf cfg tps) * tpbOf cfg tps := by
    refine dvd_sub ht (Dvd.dvd.mul_left ?_ _)
    exact ⟨4 * (cfg.beat_res_max : Int), by unfold tpbOf tdOf; ring⟩
  obtain ⟨c, hc⟩ := hdvd
  have hc0 : 0 ≤ c := by nlinarith
  have hpi : posIndexOf cfg tps t = c := by
    unfold posIndexOf
    rw [hc]
    have : tps * c * (cfg.beat_res_max : Int)
        = c * ((cfg.beat_res_max : Int) * tps) := by ring
    rw [this]
    unfold tdOf
    exact Int.mul_tdiv_cancel c (by positivity)
  constructor
  · rw [hpi, hc]
    ring
  · rw [hpi]
    exact hc0

lemma fdiv_td_br (cfg : Config) (tps : Int) (hset : BaseSetup cfg tps) :
    Int.fdiv (tdOf cfg tps) (cfg.beat_res_max : Int) = tps := by
  unfold tdOf
  rw [Int.mul_comm]
  exact Int.mul_fdiv_cancel tps (ne_of_gt hset.hbr)

/-- Decoding one signature-less Bar token with time signatures disabled:
bump the bar counter, advance `current_tick` by one bar except before bar 0,
re-anchor `tick_at_current_bar`, raise the note-end watermark. -/
lemma decode_barTok (cfg : Config) (td : Int) (si : Nat) (st : DecState)
    (T : Int) (hts : cfg.use_time_signatures = false) :
    decodeToken cfg td si st (mkBarToken cfg T none)
      = some
          { st with
            current_bar := st.current_bar + 1,
            current_tick :=
              if 0 < st.current_bar + 1 then
                st.tick_at_current_bar + st.ticks_per_bar
              else st.current_tick,
            tick_at_current_bar :=
              if 0 < st.current_bar + 1 then
                st.tick_at_current_bar + st.ticks_per_bar
              else st.current_tick,
            previous_note_end :=
              max st.previous_note_end
                (if 0 < st.current_bar + 1 then
                  st.tick_at_current_bar + st.ticks_per_bar
                else st.current_tick) } := by
  unfold decodeToken decodeBarTok
  rw [famOf_mkBarToken cfg T none, slot1_mkBarToken cfg T]
  simp [hts]
  split_ifs <;> simp

/-- Decoding one Position token (no chord / tempo fields, tempos disabled)
after the first bar: place `current_tick` on the sample grid of the current
bar and raise the note-end watermark. -/
lemma decode_posTok (cfg : Config) (tps : Int) (hset : BaseSetup cfg tps)
    (st : DecState) (T m : Int) (hcb : st.current_bar ≠ -1) :
    decodeToken cfg (tdOf cfg tps) 0 st (mkPositionToken cfg T m none none)
      = some
          { st with
            current_tick := st.tick_at_current_bar + m * tps,
            previous_note_end :=
              max st.previous_note_end
                (st.tick_at_current_bar + m * tps) } := by
  unfold decodeToken decodePositionTok
  rw [famOf_mkPositionToken cfg T m, slot1_mkPositionToken cfg T m]
  simp [hset.ht, hcb, fdiv_td_br cfg tps hset, intOfVal]

/-- Decoding one Note token with programs disabled and per-track streams:
append the note at `current_tick` and raise the note-end watermark. -/
lemma decode_noteTok (cfg : Config) (td : Int) (si : Nat) (st : DecState)
    (t p v : Int) (d : Dur) (hp : cfg.use_programs = false)
    (hots : cfg.one_token_stream = false) :
    decodeToken cfg td si st (noteTokOf cfg t p v d)
      = some
          { st with
            cur_notes := st.cur_notes
              ++ [⟨v, p, st.current_tick,
                  st.current_tick + tokenDurationToTicks d td⟩],
            previous_note_end :=
              max st.previous_note_end
                (st.current_tick + tokenDurationToTicks d td) } := by
  obtain ⟨h2, h3, h4, hck⟩ := slots_noteTokOf cfg t p v d
  rw [List.get?_eq_getElem?] at h2 h3 h4
  unfold decodeToken decodeNoteTok
  rw [famOf_noteTokOf]
  simp [hp, hots, hck, h2, h3, h4, intOfVal, durOfVal]

lemma barToksOf_succ (cfg : Config) (tpb cb : Int) (k : Nat) :
    barToksOf cfg tpb cb (k + 1)
      = mkBarToken cfg ((cb + 1) * tpb) none
        :: barToksOf cfg tpb (cb + 1) k := by
  unfold barToksOf
  rw [List.range_succ_eq_map]
  simp only [List.map_cons, List.map_map, Function.comp]
  congr 1
  · norm_num
  · apply List.map_congr_left
    intro i hi
    show mkBarToken cfg ((cb + ((i + 1 : Nat) : Int) + 1) * tpb) none
      = mkBarToken cfg ((cb + 1 + (i : Int) + 1) * tpb) none
    have h : (cb + ((i + 1 : Nat) : Int) + 1) * tpb
        = (cb + 1 + (i : Int) + 1) * tpb := by
      push_cast
      ring
    rw [h]

/-- Decoding a run of `k` signature-less Bar tokens from a state already on
the bar grid: the bar counter advances by `k` and the bar anchor follows. -/
lemma decode_bars_run_pos (cfg : Config) (tps : Int) (hset : BaseSetup cfg tps)
    (hts : cfg.use_time_signatures = false) :
    ∀ (k : Nat) (st : DecState),
      st.ticks_per_bar = tpbOf cfg tps →
      0 ≤ st.current_bar →
      st.tick_at_current_bar = st.current_bar * tpbOf cfg tps →
      ∃ tick' pne',
        (barToksOf cfg (tpbOf cfg tps) st.current_bar k).foldlM
            (decodeToken cfg (tdOf cfg tps) 0) st
          = some
            { st with
              current_bar := st.current_bar + k,
              tick_at_current_bar :=
                (st.current_bar + k) * tpbOf cfg tps,
              current_tick := tick',
              previous_note_end := pne' }
          ∧ (k = 0 → tick' = st.current_tick
              ∧ pne' = st.previous_note_end) := by
  intro k
  induction k with
  | zero =>
    intro st htpb hge hanc
    refine ⟨st.current_tick, st.previous_note_end, ?_,
      fun _ => ⟨rfl, rfl⟩⟩
    have h1 : st.current_bar + ((0 : Nat) : Int) = st.current_bar := by
      push_cast
      ring
    rw [h1, ← hanc]
    simp [barToksOf]
  | succ k ih =>
    intro st htpb hge hanc
    rw [barToksOf_succ, List.foldlM_cons]
    rw [decode_barTok cfg (tdOf cfg tps) 0 st ((st.current_bar + 1)
      * tpbOf cfg tps) hts]
    simp only [Option.bind_eq_bind, Option.some_bind]
    rw [if_pos (by omega)]
    set st2 : DecState :=
      { st with
        current_bar := st.current_bar + 1,
        current_tick := st.tick_at_current_bar + st.ticks_per_bar,
        tick_at_current_bar := st.tick_at_current_bar + st.ticks_per_bar,
        previous_note_end :=
          max st.previous_note_end
            (st.tick_at_current_bar + st.ticks_per_bar) } with hst2
    have hanc2 : st2.tick_at_current_bar
        = st2.current_bar * tpbOf cfg tps := by
      show st.tick_at_current_bar + st.ticks_per_bar
        = (st.current_bar + 1) * tpbOf cfg tps
      rw [hanc, htpb]
      ring
    obtain ⟨tick', pne', hEq, h0⟩ :=
      ih st2 htpb (by show 0 ≤ st.current_bar + 1; omega) hanc2
    have hcb2 : st2.current_bar = st.current_bar + 1 := rfl
    rw [hcb2] at hEq
    rw [hEq]
    refine ⟨tick', pne', ?_, fun hk => absurd hk (Nat.succ_ne_zero k)⟩
    have harith1 : st.current_bar + 1 + (k : Int)
        = st.current_bar + ((k + 1 : Nat) : Int) := by
      push_cast
      ring
    rw [harith1]

/-- Decoding a run of `k + 1` signature-less Bar tokens from the pristine
pre-bar state (`current_bar = -1`, zero tick and anchor): the bar counter
lands on `k` and the bar anchor on `k` bars. -/
lemma decode_bars_run_neg (cfg : Config) (tps : Int) (hset : BaseSetup cfg tps)
    (hts : cfg.use_time_signatures = false) (k : Nat) (st : DecState)
    (htpb : st.ticks_per_bar = tpbOf cfg tps)
    (hm1 : st.current_bar = -1)
    (h0 : st.tick_at_current_bar = 0)
    (ht0 : st.current_tick = 0) :
    ∃ tick' pne',
      (barToksOf cfg (tpbOf cfg tps) st.current_bar (k + 1)).foldlM
          (decodeToken cfg (tdOf cfg tps) 0) st
        = some
          { st with
            current_bar := (k : Int),
            tick_at_current_bar := (k : Int) * tpbOf cfg tps,
            current_tick := tick',
            previous_note_end := pne' } := by
  rw [barToksOf_succ, List.foldlM_cons]
  rw [decode_barTok cfg (tdOf cfg tps) 0 st ((st.current_bar + 1)
    * tpbOf cfg tps) hts]
  simp only [Option.bind_eq_bind, Option.some_bind]
  rw [if_neg (by omega)]
  set st2 : DecState :=
    { st with
      current_bar := st.current_bar + 1,
      current_tick := st.current_tick,
      tick_at_current_bar := st.current_tick,
      previous_note_end :=
        max st.previous_note_end st.current_tick } with hst2
  have hanc2 : st2.tick_at_current_bar
      = st2.current_bar * tpbOf cfg tps := by
    show st.current_tick = (st.current_bar + 1) * tpbOf cfg tps
    rw [ht0, hm1]
    ring
  obtain ⟨tick', pne', hEq, hk0⟩ :=
    decode_bars_run_pos cfg tps hset hts k st2 htpb
      (by show 0 ≤ st.current_bar + 1; omega) hanc2
  have hcb2 : st2.current_bar = st.current_bar + 1 := rfl
  rw [hcb2] at hEq
  rw [hEq]
  refine ⟨tick', pne', ?_⟩
  have harith : st.current_bar + 1 + (k : Int) = (k : Int) := by
    omega
  rw [harith]

lemma elim_getLast_cons {β : Type} (n : NoteSpec) (rest : List NoteSpec)
    (d : β) (f : NoteSpec → β) :
    ((n :: rest).getLast?).elim d f = (rest.getLast?).elim (f n) f := by
  cases rest with
  | nil => rfl
  | cons m r =>
    rw [List.getLast?_cons_cons]
    cases h : (m :: r).getLast? with
    | none =>
      rw [List.getLast?_eq_none_iff] at h
      cases h
    | some x => rfl

/-- Decoder master: folding the expected token stream of a well-formed note
stream through the decode loop appends exactly the expected notes and moves
the Grid State to the last note's bar and tick. -/
lemma dec_master (cfg : Config) (tps : Int) (hset : BaseSetup cfg tps) :
    ∀ (ns : List NoteSpec) (st : DecState) (cb pt : Int),
      (∀ n ∈ ns, 0 ≤ n.time ∧ tps ∣ n.time) →
      List.Pairwise (fun a b : NoteSpec => a.time ≤ b.time) ns →
      (∀ n ∈ ns, pt ≤ n.time) →
      ((cb = -1 ∧ pt = -1)
        ∨ (0 ≤ pt ∧ cb = Int.fdiv pt (tpbOf cfg tps))) →
      st.current_bar = cb →
      st.current_tick = (if pt = -1 then 0 else pt) →
      st.tick_at_current_bar
        = (if cb = -1 then 0 else cb * tpbOf cfg tps) →
      st.ticks_per_bar = tpbOf cfg tps →
      ∃ pne',
        (expToks cfg tps ns cb pt).foldlM
            (decodeToken cfg (tdOf cfg tps) 0) st
          = some
            { st with
              cur_notes := st.cur_notes ++ decNotesOf cfg tps ns,
              current_bar := (ns.getLast?).elim cb
                (fun n => Int.fdiv n.time (tpbOf cfg tps)),
              current_tick := (ns.getLast?).elim st.current_tick
                (fun n => n.time),
              tick_at_current_bar := (ns.getLast?).elim
                st.tick_at_current_bar
                (fun n => Int.fdiv n.time (tpbOf cfg tps) * tpbOf cfg tps),
              previous_note_end := pne' } := by
  intro ns
  induction ns with
  | nil =>
    intro st cb pt _ _ _ _ hscb _ _ _
    refine ⟨st.previous_note_end, ?_⟩
    simp [expToks, decNotesOf, ← hscb]
  | cons n rest ih =>
    intro st cb pt h0 hpw hpt hcp hscb hstk hanc htpb
    have htpb0 : 0 < tpbOf cfg tps := tpbOf_pos cfg tps hset
    have htps0 : 0 < tps := hset.htps
    have hn0 : 0 ≤ n.time := (h0 n (List.mem_cons_self n rest)).1
    have hnal : tps ∣ n.time := (h0 n (List.mem_cons_self n rest)).2
    rw [List.pairwise_cons] at hpw
    obtain ⟨hnle, hpw'⟩ := hpw
    have hfd0 : 0 ≤ Int.fdiv n.time (tpbOf cfg tps) :=
      fdiv_nonneg_of_nonneg htpb0 hn0
    simp only [expToks]
    by_cases hsame : n.time = pt
    · rw [if_pos hsame]
      rw [List.foldlM_cons]
      rw [decode_noteTok cfg (tdOf cfg tps) 0 st n.time n.pitch n.velocity
        n.dur hset.hp hset.hots]
      simp only [Option.bind_eq_bind, Option.some_bind]
      have hptm1 : ¬ pt = -1 := by omega
      have hstk' : st.current_tick = n.time := by
        rw [hstk, if_neg hptm1, hsame]
      rcases hcp with ⟨_, hpt1⟩ | ⟨hpt0, hcbq⟩
      · omega
      have hcbm1 : ¬ cb = -1 := by
        have : 0 ≤ cb := by
          rw [hcbq]
          exact fdiv_nonneg_of_nonneg htpb0 (by omega)
        omega
      obtain ⟨pne', hEq⟩ := ih
        { st with
          cur_notes := st.cur_notes
            ++ [⟨n.velocity, n.pitch, st.current_tick,
                st.current_tick
                  + tokenDurationToTicks n.dur (tdOf cfg tps)⟩],
          previous_note_end :=
            max st.previous_note_end
              (st.current_tick
                + tokenDurationToTicks n.dur (tdOf cfg tps)) }
        cb pt (fun m hm => h0 m (List.mem_cons_of_mem _ hm)) hpw'
        (fun m hm => hpt m (List.mem_cons_of_mem _ hm))
        (Or.inr ⟨hpt0, hcbq⟩) hscb hstk hanc htpb
      rw [hEq]
      refine ⟨pne', ?_⟩
      have e1 : Int.fdiv n.time (tpbOf cfg tps) = cb := by
        rw [hsame, ← hcbq]
      have e2 : st.tick_at_current_bar = cb * tpbOf cfg tps := by
        rw [hanc, if_neg hcbm1]
      simp only []
      rw [elim_getLast_cons, elim_getLast_cons, elim_getLast_cons]
      rw [e1, ← e2, hstk']
      simp [decNotesOf, List.append_assoc, ← hscb]
    · rw [if_neg hsame]
      obtain ⟨tickB, pneB, hrun⟩ :
          ∃ tickB pneB,
            (barToksOf cfg (tpbOf cfg tps) cb
                (Int.fdiv n.time (tpbOf cfg tps) - cb).toNat).foldlM
                (decodeToken cfg (tdOf cfg tps) 0) st
              = some
                { st with
                  current_bar := Int.fdiv n.time (tpbOf cfg tps),
                  tick_at_current_bar :=
                    Int.fdiv n.time (tpbOf cfg tps) * tpbOf cfg tps,
                  current_tick := tickB,
                  previous_note_end := pneB } := by
        rcases hcp with ⟨hcbm, hptm⟩ | ⟨hpt0, hcbq⟩
        · have hK : (Int.fdiv n.time (tpbOf cfg tps) - cb).toNat
              = (Int.fdiv n.time (tpbOf cfg tps)).toNat + 1 := by
            omega
          have hBT : barToksOf cfg (tpbOf cfg tps) cb
                ((Int.fdiv n.time (tpbOf cfg tps)).toNat + 1)
              = barToksOf cfg (tpbOf cfg tps) st.current_bar
                ((Int.fdiv n.time (tpbOf cfg tps)).toNat + 1) := by
            rw [hscb, hcbm]
          rw [hK, hBT]
          obtain ⟨tick', pne', hEq⟩ :=
            decode_bars_run_neg cfg tps hset hset.hts
              (Int.fdiv n.time (tpbOf cfg tps)).toNat st htpb
              (by rw [hscb, hcbm]) (by rw [hanc, if_pos hcbm])
              (by rw [hstk, if_pos hptm])
          have hcast : (((Int.fdiv n.time (tpbOf cfg tps)).toNat : Nat)
              : Int) = Int.fdiv n.time (tpbOf cfg tps) :=
            Int.toNat_of_nonneg hfd0
          rw [hcast] at hEq
          exact ⟨tick', pne', hEq⟩
        · have hcb0 : 0 ≤ cb := by
            rw [hcbq]
            exact fdiv_nonneg_of_nonneg htpb0 hpt0
          have hcble : cb ≤ Int.fdiv n.time (tpbOf cfg tps) := by
            rw [hcbq]
            exact fdiv_mono_num htpb0 (hpt n (List.mem_cons_self n rest))
          obtain ⟨tick', pne', hEq, _⟩ :=
            decode_bars_run_pos cfg tps hset hset.hts
              (Int.fdiv n.time (tpbOf cfg tps) - cb).toNat st htpb
              (by rw [hscb]; omega)
              (by rw [hanc, if_neg (by omega), hscb])
          have hsum : st.current_bar
              + (((Int.fdiv n.time (tpbOf cfg tps) - cb).toNat : Nat) : Int)
              = Int.fdiv n.time (tpbOf cfg tps) := by
            rw [hscb, Int.toNat_of_nonneg
              (by omega : (0 : Int) ≤ Int.fdiv n.time (tpbOf cfg tps) - cb)]
            omega
          rw [hsum] at hEq
          have hBT2 : barToksOf cfg (tpbOf cfg tps) cb
                (Int.fdiv n.time (tpbOf cfg tps) - cb).toNat
              = barToksOf cfg (tpbOf cfg tps) st.current_bar
                (Int.fdiv n.time (tpbOf cfg tps) - cb).toNat := by
            rw [hscb]
          rw [hBT2]
          exact ⟨tick', pne', hEq⟩
      rw [List.foldlM_append, hrun]
      simp only [Option.bind_eq_bind, Option.some_bind]
      rw [List.foldlM_cons]
      have hmt : Int.fdiv n.time (tpbOf cfg tps) * tpbOf cfg tps
          + posIndexOf cfg tps n.time * tps = n.time := by
        have hspec := (posIndexOf_spec cfg tps hset n.time hnal).1
        linarith
      have hpos : decodeToken cfg (tdOf cfg tps) 0
          { st with
            current_bar := Int.fdiv n.time (tpbOf cfg tps),
            tick_at_current_bar :=
              Int.fdiv n.time (tpbOf cfg tps) * tpbOf cfg tps,
            current_tick := tickB,
            previous_note_end := pneB }
          (mkPositionToken cfg n.time (posIndexOf cfg tps n.time) none none)
        = some
            { st with
              current_bar := Int.fdiv n.time (tpbOf cfg tps),
              tick_at_current_bar :=
                Int.fdiv n.time (tpbOf cfg tps) * tpbOf cfg tps,
              current_tick := n.time,
              previous_note_end := max pneB n.time } := by
        rw [decode_posTok cfg tps hset _ n.time _
          (by show ¬ Int.fdiv n.time (tpbOf cfg tps) = -1; omega)]
        simp only []
        rw [hmt]
      rw [hpos]
      simp only [Option.bind_eq_bind, Option.some_bind]
      rw [List.foldlM_cons]
      rw [decode_noteTok cfg (tdOf cfg tps) 0 _ n.time n.pitch n.velocity
        n.dur hset.hp hset.hots]
      simp only [Option.bind_eq_bind, Option.some_bind]
      obtain ⟨pne', hEq⟩ := ih
        { st with
          current_bar := Int.fdiv n.time (tpbOf cfg tps),
          tick_at_current_bar :=
            Int.fdiv n.time (tpbOf cfg tps) * tpbOf cfg tps,
          current_tick := n.time,
          cur_notes := st.cur_notes
            ++ [⟨n.velocity, n.pitch, n.time,
                n.time + tokenDurationToTicks n.dur (tdOf cfg tps)⟩],
          previous_note_end :=
            max (max pneB n.time)
              (n.time + tokenDurationToTicks n.dur (tdOf cfg tps)) }
        (Int.fdiv n.time (tpbOf cfg tps)) n.time
        (fun m hm => h0 m (List.mem_cons_of_mem _ hm)) hpw' hnle
        (Or.inr ⟨hn0, rfl⟩) rfl
        (by rw [if_neg (by omega : ¬ n.time = -1)])
        (by rw [if_neg (by omega : ¬ Int.fdiv n.time (tpbOf cfg tps) = -1)])
        htpb
      rw [hEq]
      refine ⟨pne', ?_⟩
      rw [elim_getLast_cons, elim_getLast_cons, elim_getLast_cons]
      simp [decNotesOf, List.append_assoc]



/-- The decode state `tokens_to_midi` prepares for the first (and only) track
of a per-track decode with time signatures disabled: default 4/4 seeding and a
fresh per-track Grid State. -/
def decPrep (cfg : Config) (td : Int) : DecState :=
  { decInit with
    time_signature_changes := [⟨4, 4, 0⟩],
    current_time_sig := ⟨4, 4, 0⟩,
    ticks_per_bar := computeTicksPerBar (4, 4) td,
    current_tick := 0,
    tick_at_last_ts_change := 0,
    tick_at_current_bar := 0,
    current_bar := -1,
    bar_at_last_ts_change := 0,
    previous_note_end := 0,
    current_program := 0,
    cur_prog := 0,
    cur_notes := [] }

lemma decodeOneSeq_single (cfg : Config) (tps : Int) (hset : BaseSetup cfg tps)
    (toks : List CPTok) (st4 : DecState)
    (hfold : toks.foldlM (decodeToken cfg (tdOf cfg tps) 0)
        (decPrep cfg (tdOf cfg tps)) = some st4) :
    decodeOneSeq cfg (tdOf cfg tps) (some [(0, false)]) decInit 0 toks
      = some
          { st4 with
            tracks := st4.tracks ++ [(st4.cur_prog, st4.cur_notes)] } := by
  unfold decodeOneSeq decodeSeqInit
  rw [hset.hts, hset.hots]
  show (match toks.foldlM (decodeToken cfg (tdOf cfg tps) 0)
      (decPrep cfg (tdOf cfg tps)) with
    | none => none
    | some st =>
      some { st with tracks := st.tracks ++ [(st.cur_prog, st.cur_notes)] })
    = some
      { st4 with
        tracks := st4.tracks ++ [(st4.cur_prog, st4.cur_notes)] }
  rw [hfold]

lemma tokensToMidi_single_track (cfg : Config) (tps : Int)
    (hset : BaseSetup cfg tps) (toks : List CPTok) (st4 : DecState)
    (nl : List NoteR)
    (hfold : toks.foldlM (decodeToken cfg (tdOf cfg tps) 0)
        (decPrep cfg (tdOf cfg tps)) = some st4)
    (htc : st4.tempo_changes = [⟨TEMPO, -1⟩])
    (htsc : st4.time_signature_changes = [⟨4, 4, 0⟩])
    (htrk : st4.tracks = [])
    (hcp : st4.cur_prog = 0)
    (hnl : st4.cur_notes = nl) :
    tokensToMidi cfg (tdOf cfg tps) [toks] (some [(0, false)])
      = some
          ⟨[(0, nl)], [⟨TEMPO, 0⟩], [⟨4, 4, 0⟩],
            ((nl.map (fun n => n.fin)).max?).getD 0⟩ := by
  have hone := decodeOneSeq_single cfg tps hset toks st4 hfold
  unfold tokensToMidi
  rw [if_neg (fun hcon => hcon (Int.mul_emod_right _ _))]
  have henum : ([toks].enum.foldlM
      (fun st p =>
        decodeOneSeq cfg (tdOf cfg tps) (some [(0, false)]) st p.1 p.2)
      decInit)
      = some
        { st4 with
          tracks := st4.tracks ++ [(st4.cur_prog, st4.cur_notes)] } := by
    show (decodeOneSeq cfg (tdOf cfg tps) (some [(0, false)]) decInit 0 toks
        >>= fun b =>
          ([] : List (Nat × List CPTok)).foldlM
            (fun st p =>
              decodeOneSeq cfg (tdOf cfg tps) (some [(0, false)]) st p.1 p.2)
            b)
      = some
        { st4 with
          tracks := st4.tracks ++ [(st4.cur_prog, st4.cur_notes)] }
    rw [hone]
    rfl
  rw [henum]
  simp only []
  rw [hset.hots]
  rw [htc, htsc, htrk, hcp, hnl]
  rfl

/-! ## C1: the encode / decode round trip -/

/-- C1 (amended): under a configuration with every optional feature disabled
and a time division compatible with the sample grid, and for every
grid-aligned, time-ordered note stream, decoding the freshly encoded
compound-token sequence with `tokens_to_midi` reproduces every note with
identical pitch, velocity, start tick and duration, together with the default
tempo (120 at tick 0) and time-signature (4/4 at tick 0) seedings.  Without
grid alignment the round trip fails (see the unaligned counterexample), so
the claim's unrestricted "every time-ordered event sequence" is too strong. -/
theorem round_trip_aligned (cfg : Config) (tps : Int)
    (hset : BaseSetup cfg tps) (ns : List NoteSpec)
    (hwf : NotesWF tps ns) :
    tokensToMidi cfg (tdOf cfg tps)
        [addTimeEvents cfg (tdOf cfg tps) (eventsOfNotes (tdOf cfg tps) ns)]
        (some [(0, false)])
      = some
          ⟨[(0, decNotesOf cfg tps ns)], [⟨TEMPO, 0⟩], [⟨4, 4, 0⟩],
            (((decNotesOf cfg tps ns).map (fun n => n.fin)).max?).getD 0⟩ := by
  obtain ⟨hmem, hchain⟩ := hwf
  have h0 : ∀ n ∈ ns, 0 ≤ n.time := fun n hn => (hmem n hn).1
  haveI : IsTrans NoteSpec (fun a b : NoteSpec => a.time ≤ b.time) :=
    ⟨fun a b c h1 h2 => le_trans h1 h2⟩
  have hpw : List.Pairwise (fun a b : NoteSpec => a.time ≤ b.time) ns :=
    List.chain'_iff_pairwise.mp hchain
  rw [addTimeEvents_notes cfg tps hset ns h0 hpw]
  have htpbP : (decPrep cfg (tdOf cfg tps)).ticks_per_bar
      = tpbOf cfg tps := by
    show computeTicksPerBar (4, 4) (tdOf cfg tps) = tpbOf cfg tps
    exact computeTicksPerBar_default cfg tps
  obtain ⟨pne', hfold⟩ :=
    dec_master cfg tps hset ns (decPrep cfg (tdOf cfg tps)) (-1) (-1)
      hmem hpw
      (fun n hn => by
        have := (hmem n hn).1
        omega)
      (Or.inl ⟨rfl, rfl⟩) rfl (by rfl) (by rfl) htpbP
  exact tokensToMidi_single_track cfg tps hset _ _
    (decNotesOf cfg tps ns) hfold rfl rfl rfl rfl rfl

/-- Witness for C1's amended theorem: a two-note grid-aligned stream under the
minimal configuration at 60 ticks per sample. -/
theorem round_trip_aligned_witness :
    tokensToMidi cfg0 (tdOf cfg0 60)
        [addTimeEvents cfg0 (tdOf cfg0 60)
          (eventsOfNotes (tdOf cfg0 60)
            [⟨60, 100, (1, 0, 8), 0⟩, ⟨64, 90, (2, 0, 4), 960⟩])]
        (some [(0, false)])
      = some
          ⟨[(0, decNotesOf cfg0 60
              [⟨60, 100, (1, 0, 8), 0⟩, ⟨64, 90, (2, 0, 4), 960⟩])],
            [⟨TEMPO, 0⟩], [⟨4, 4, 0⟩],
            (((decNotesOf cfg0 60
                [⟨60, 100, (1, 0, 8), 0⟩, ⟨64, 90, (2, 0, 4), 960⟩]).map
              (fun n => n.fin)).max?).getD 0⟩ :=
  round_trip_aligned cfg0 60
    ⟨rfl, rfl, rfl, rfl, rfl, rfl, rfl, by decide, by decide⟩
    [⟨60, 100, (1, 0, 8), 0⟩, ⟨64, 90, (2, 0, 4), 960⟩]
    ⟨by decide, by
      rw [List.chain'_cons]
      exact ⟨by decide, List.chain'_singleton _⟩⟩

/-- Counterexample to C1 as stated: a single note at the unaligned tick 1
(time division 480, eight samples per beat, so the grid step is 60) decodes
to start tick 0, not 1 — the Position grid index rounds the offset down, so
the round trip does not reproduce the start tick of every time-ordered
stream. -/
theorem round_trip_unaligned_fails :
    (tokensToMidi cfg0 480
        [addTimeEvents cfg0 480
          (eventsOfNotes 480 [⟨60, 100, (1, 0, 8), 1⟩])]
        (some [(0, false)])).map
      (fun r => r.instruments.map
        (fun p => (p.1, p.2.map (fun n => (n.pitch, n.start)))))
      = some [(0, [(60, 0)])] ∧ (0 : Int) ≠ 1 := by
  decide

/-! ## C2: the validator on a fresh encoding -/

lemma resetPitches_single (cfg : Config) (hpl : cfg.programs = [0]) :
    resetPitches cfg = [(0, [])] := by
  unfold resetPitches
  rw [hpl]
  rfl

lemma val_barTok (cfg : Config) (hpl : cfg.programs = [0]) (st : ErrState)
    (T : Int)
    (hprev : st.previous_type = "Bar" ∨ st.previous_type = "Pitch") :
    errStep cfg (createTokenTypesGraph false false false) st
        (mkBarToken cfg T none)
      = some
          { st with
            previous_type := "Bar", current_pos := -1,
            current_pitches := [(0, [])] } := by
  unfold errStep
  rw [cpTokenType_barTok, resetPitches_single cfg hpl]
  rcases hprev with h | h <;> rw [h] <;> rfl

lemma val_posTok_aux (cfg : Config) (st : ErrState) (m : Int) (s : String)
    (hlt : st.current_pos < m) :
    (if m ≤ st.current_pos ∧ s ≠ "Rest" then
        some { st with err := st.err + 1, previous_type := "Position" }
      else
        some
          { st with
            current_pos := m, current_pitches := [((0 : Int), ([] : List Int))],
            previous_type := "Position" })
      = some
          ({ st with
            previous_type := "Position", current_pos := m,
            current_pitches := [(0, [])] } : ErrState) := by
  rw [if_neg (fun hc => absurd hc.1 (not_le.mpr hlt))]

lemma val_posTok (cfg : Config) (hpl : cfg.programs = [0]) (st : ErrState)
    (T m : Int)
    (hprev : st.previous_type = "Bar" ∨ st.previous_type = "Pitch")
    (hlt : st.current_pos < m) :
    errStep cfg (createTokenTypesGraph false false false) st
        (mkPositionToken cfg T m none none)
      = some
          { st with
            previous_type := "Position", current_pos := m,
            current_pitches := [(0, [])] } := by
  unfold errStep
  rw [cpTokenType_posTok, resetPitches_single cfg hpl]
  rcases hprev with h | h <;> rw [h]
  · exact val_posTok_aux cfg st m "Bar" hlt
  · exact val_posTok_aux cfg st m "Pitch" hlt

lemma val_noteTok_aux (st : ErrState) (p : Int)
    (G : List Int) (hnotin : p ∉ G) :
    (if p ∈ G then
        some
          (⟨st.err + 1, "Pitch", st.current_pos, 0, [(0, G)]⟩ : ErrState)
      else
        some
          (⟨st.err, "Pitch", st.current_pos, 0,
            alAdd [(0, G)] 0 p⟩ : ErrState))
      = some ⟨st.err, "Pitch", st.current_pos, 0, [(0, G ++ [p])]⟩ := by
  rw [if_neg hnotin]
  rfl

lemma val_noteTok (cfg : Config) (hp : cfg.use_programs = false)
    (st : ErrState) (t p v : Int) (d : Dur) (G : List Int)
    (hprev : st.previous_type = "Position"
      ∨ st.previous_type = "Pitch")
    (hprog : st.program = 0)
    (hG : st.current_pitches = [(0, G)])
    (hnotin : p ∉ G) :
    errStep cfg (createTokenTypesGraph false false false) st
        (noteTokOf cfg t p v d)
      = some
          { st with
            previous_type := "Pitch", program := 0,
            current_pitches := [(0, G ++ [p])] } := by
  unfold errStep
  rw [cpTokenType_noteTok, hp, hprog, hG]
  rcases hprev with h | h <;> rw [h] <;>
    exact val_noteTok_aux st p G hnotin

lemma val_bars_run (cfg : Config) (hpl : cfg.programs = [0]) :
    ∀ (k : Nat) (tpb cb : Int) (st : ErrState),
      (st.previous_type = "Bar" ∨ st.previous_type = "Pitch") →
      (barToksOf cfg tpb cb k).foldlM
          (errStep cfg (createTokenTypesGraph false false false)) st
        = some
            (if k = 0 then st
            else
              { st with
                previous_type := "Bar", current_pos := -1,
                current_pitches := [(0, [])] }) := by
  intro k
  induction k with
  | zero =>
    intro tpb cb st hprev
    simp [barToksOf]
  | succ k ih =>
    intro tpb cb st hprev
    rw [barToksOf_succ, List.foldlM_cons]
    rw [val_barTok cfg hpl st _ hprev]
    simp only [Option.bind_eq_bind, Option.some_bind]
    rw [ih tpb (cb + 1) _ (Or.inl rfl)]
    cases k <;> rfl

/-- Validator master: folding the expected token stream of a well-formed
note stream (no two same-tick notes sharing a pitch) through the scoring loop
never increments the error counter. -/
lemma val_master (cfg : Config) (tps : Int) (hset : BaseSetup cfg tps) :
    ∀ (ns : List NoteSpec) (E : Nat) (cpos : Int) (G : List Int)
      (cb pt : Int),
      (∀ n ∈ ns, 0 ≤ n.time ∧ tps ∣ n.time) →
      List.Pairwise (fun a b : NoteSpec => a.time ≤ b.time) ns →
      List.Pairwise
        (fun a b : NoteSpec => a.time = b.time → a.pitch ≠ b.pitch) ns →
      (∀ n ∈ ns, pt ≤ n.time) →
      0 ≤ pt →
      cb = Int.fdiv pt (tpbOf cfg tps) →
      cpos * tps = pt - cb * tpbOf cfg tps →
      (∀ n ∈ ns, n.time = pt → n.pitch ∉ G) →
      ∃ cpos' G',
        (expToks cfg tps ns cb pt).foldlM
            (errStep cfg (createTokenTypesGraph false false false))
            ⟨E, "Pitch", cpos, 0, [(0, G)]⟩
          = some ⟨E, "Pitch", cpos', 0, [(0, G')]⟩ := by
  intro ns
  induction ns with
  | nil =>
    intro E cpos G cb pt _ _ _ _ _ _ _ _
    exact ⟨cpos, G, by simp [expToks]⟩
  | cons n rest ih =>
    intro E cpos G cb pt h0 hpw hdist hpt hpt0 hcbq hcpos hG
    have htpb0 : 0 < tpbOf cfg tps := tpbOf_pos cfg tps hset
    have htps0 : 0 < tps := hset.htps
    have hn0 : 0 ≤ n.time := (h0 n (List.mem_cons_self n rest)).1
    have hnal : tps ∣ n.time := (h0 n (List.mem_cons_self n rest)).2
    rw [List.pairwise_cons] at hpw hdist
    obtain ⟨hnle, hpw'⟩ := hpw
    obtain ⟨hnd, hdist'⟩ := hdist
    have hfd0 : 0 ≤ Int.fdiv n.time (tpbOf cfg tps) :=
      fdiv_nonneg_of_nonneg htpb0 hn0
    have hcb0 : 0 ≤ cb := by
      rw [hcbq]
      exact fdiv_nonneg_of_nonneg htpb0 hpt0
    simp only [expToks]
    by_cases hsame : n.time = pt
    · rw [if_pos hsame]
      rw [List.foldlM_cons]
      rw [val_noteTok cfg hset.hp _ n.time n.pitch n.velocity n.dur G
        (Or.inr rfl) rfl rfl (hG n (List.mem_cons_self n rest) hsame)]
      simp only [Option.bind_eq_bind, Option.some_bind]
      obtain ⟨cpos', G', hEq⟩ := ih E cpos (G ++ [n.pitch]) cb pt
        (fun m hm => h0 m (List.mem_cons_of_mem _ hm)) hpw' hdist'
        (fun m hm => hpt m (List.mem_cons_of_mem _ hm)) hpt0 hcbq hcpos
        (fun m hm hmt q => by
          rcases List.mem_append.mp q with hq | hq
          · exact hG m (List.mem_cons_of_mem _ hm) hmt hq
          · have : m.pitch = n.pitch := by simpa using hq
            exact hnd m hm (by rw [hsame, ← hmt]) this.symm)
      exact ⟨cpos', G', hEq⟩
    · rw [if_neg hsame]
      have hptlt : pt < n.time :=
        lt_of_le_of_ne (hpt n (List.mem_cons_self n rest))
          (fun h => hsame h.symm)
      have hcble : cb ≤ Int.fdiv n.time (tpbOf cfg tps) := by
        rw [hcbq]
        exact fdiv_mono_num htpb0 (le_of_lt hptlt)
      have hpspec := posIndexOf_spec cfg tps hset n.time hnal
      rw [List.foldlM_append]
      rw [val_bars_run cfg hset.hpl
        (Int.fdiv n.time (tpbOf cfg tps) - cb).toNat (tpbOf cfg tps) cb
        _ (Or.inr rfl)]
      simp only [Option.bind_eq_bind, Option.some_bind]
      obtain ⟨cpos', G', hEq⟩ := ih E (posIndexOf cfg tps n.time)
        [n.pitch] (Int.fdiv n.time (tpbOf cfg tps)) n.time
        (fun m hm => h0 m (List.mem_cons_of_mem _ hm)) hpw' hdist'
        hnle hn0 rfl
        (by rw [hpspec.1])
        (fun m hm hmt q => by
          have : m.pitch = n.pitch := by simpa using q
          exact hnd m hm hmt.symm this.symm)
      by_cases hk0 : (Int.fdiv n.time (tpbOf cfg tps) - cb).toNat = 0
      · rw [hk0]
        rw [if_pos rfl]
        have hcbeq : cb = Int.fdiv n.time (tpbOf cfg tps) := by
          omega
        have hlt2 : cpos < posIndexOf cfg tps n.time := by
          have h1 : cpos * tps < posIndexOf cfg tps n.time * tps := by
            rw [hcpos, hpspec.1, ← hcbeq]
            omega
          exact lt_of_mul_lt_mul_right h1 (le_of_lt htps0)
        rw [List.foldlM_cons]
        rw [val_posTok cfg hset.hpl _ n.time (posIndexOf cfg tps n.time)
          (Or.inr rfl) hlt2]
        simp only [Option.bind_eq_bind, Option.some_bind]
        rw [List.foldlM_cons]
        rw [val_noteTok cfg hset.hp _ n.time n.pitch n.velocity n.dur []
          (Or.inl rfl) rfl rfl (by simp)]
        simp only [Option.bind_eq_bind, Option.some_bind]
        rw [show ([] : List Int) ++ [n.pitch] = [n.pitch] from rfl]
        rw [hEq]
        exact ⟨cpos', G', rfl⟩
      · rw [if_neg hk0]
        have hlt2 : (-1 : Int) < posIndexOf cfg tps n.time := by
          have := hpspec.2
          omega
        rw [List.foldlM_cons]
        rw [val_posTok cfg hset.hpl _ n.time (posIndexOf cfg tps n.time)
          (Or.inl rfl) hlt2]
        simp only [Option.bind_eq_bind, Option.some_bind]
        rw [List.foldlM_cons]
        rw [val_noteTok cfg hset.hp _ n.time n.pitch n.velocity n.dur []
          (Or.inl rfl) rfl rfl (by simp)]
        simp only [Option.bind_eq_bind, Option.some_bind]
        rw [show ([] : List Int) ++ [n.pitch] = [n.pitch] from rfl]
        rw [hEq]
        exact ⟨cpos', G', rfl⟩

/-- C2 (amended): under a configuration with every optional feature disabled
and a grid-compatible time division, `tokens_errors` applied to the freshly
encoded token sequence of a non-empty, grid-aligned, time-ordered note stream
in which no two same-tick notes share a pitch returns error ratio exactly 0.
The unrestricted claim fails: two same-tick notes with the same pitch are
faithfully encoded, yet the validator counts a duplicated-pitch error (see
the counterexample), and the empty stream makes `tokens_errors` raise. -/
theorem fresh_encode_validates (cfg : Config) (tps : Int)
    (hset : BaseSetup cfg tps) (ns : List NoteSpec) (hwf : NotesWF tps ns)
    (hdist : List.Pairwise
      (fun a b : NoteSpec => a.time = b.time → a.pitch ≠ b.pitch) ns)
    (hne : ns ≠ []) :
    tokensErrors cfg
        (addTimeEvents cfg (tdOf cfg tps) (eventsOfNotes (tdOf cfg tps) ns))
      = some 0 := by
  obtain ⟨hmem, hchain⟩ := hwf
  have h0 : ∀ n ∈ ns, 0 ≤ n.time := fun n hn => (hmem n hn).1
  haveI : IsTrans NoteSpec (fun a b : NoteSpec => a.time ≤ b.time) :=
    ⟨fun a b c h1 h2 => le_trans h1 h2⟩
  have hpw : List.Pairwise (fun a b : NoteSpec => a.time ≤ b.time) ns :=
    List.chain'_iff_pairwise.mp hchain
  rw [addTimeEvents_notes cfg tps hset ns h0 hpw]
  obtain ⟨n, rest, rfl⟩ : ∃ n rest, ns = n :: rest := by
    cases ns with
    | nil => exact absurd rfl hne
    | cons a l => exact ⟨a, l, rfl⟩
  have htpb0 : 0 < tpbOf cfg tps := tpbOf_pos cfg tps hset
  have htps0 : 0 < tps := hset.htps
  have hn0 : 0 ≤ n.time := (hmem n (List.mem_cons_self n rest)).1
  have hnal : tps ∣ n.time := (hmem n (List.mem_cons_self n rest)).2
  have hfd0 : 0 ≤ Int.fdiv n.time (tpbOf cfg tps) :=
    fdiv_nonneg_of_nonneg htpb0 hn0
  have hpspec := posIndexOf_spec cfg tps hset n.time hnal
  rw [List.pairwise_cons] at hpw hdist
  obtain ⟨hnle, hpw'⟩ := hpw
  obtain ⟨hnd, hdist'⟩ := hdist
  have hK : (Int.fdiv n.time (tpbOf cfg tps) - (-1)).toNat
      = (Int.fdiv n.time (tpbOf cfg tps)).toNat + 1 := by
    omega
  simp only [expToks]
  rw [if_neg (show ¬ n.time = -1 by omega)]
  rw [hK, barToksOf_succ, List.cons_append]
  unfold tokensErrors valRun
  simp only []
  rw [cpTokenType_barTok]
  simp only []
  rw [hset.hc, hset.hr, hset.ht, resetPitches_single cfg hset.hpl]
  rw [List.foldlM_append]
  rw [val_bars_run cfg hset.hpl (Int.fdiv n.time (tpbOf cfg tps)).toNat
    (tpbOf cfg tps) (-1 + 1) _ (Or.inl rfl)]
  rw [show (if (Int.fdiv n.time (tpbOf cfg tps)).toNat = 0 then
      (⟨0, ("Bar", Val.vNone).1, -1, 0, [(0, [])]⟩ : ErrState)
    else
      { (⟨0, ("Bar", Val.vNone).1, -1, 0, [(0, [])]⟩ : ErrState) with
        previous_type := "Bar", current_pos := -1,
        current_pitches := [(0, [])] })
    = (⟨0, "Bar", -1, 0, [(0, [])]⟩ : ErrState) from by split <;> rfl]
  simp only [Option.bind_eq_bind, Option.some_bind]
  rw [List.foldlM_cons]
  rw [val_posTok cfg hset.hpl _ n.time (posIndexOf cfg tps n.time)
    (Or.inl rfl)
    (by
      show (-1 : Int) < posIndexOf cfg tps n.time
      have := hpspec.2
      omega)]
  simp only [Option.bind_eq_bind, Option.some_bind]
  rw [List.foldlM_cons]
  rw [val_noteTok cfg hset.hp _ n.time n.pitch n.velocity n.dur []
    (Or.inl rfl) rfl rfl (by simp)]
  simp only [Option.bind_eq_bind, Option.some_bind]
  rw [show ([] : List Int) ++ [n.pitch] = [n.pitch] from rfl]
  obtain ⟨cpos', G', hEq⟩ := val_master cfg tps hset rest 0
    (posIndexOf cfg tps n.time) [n.pitch]
    (Int.fdiv n.time (tpbOf cfg tps)) n.time
    (fun m hm => hmem m (List.mem_cons_of_mem _ hm)) hpw' hdist'
    hnle hn0 rfl
    (by rw [hpspec.1])
    (fun m hm hmt q => by
      have : m.pitch = n.pitch := by simpa using q
      exact hnd m hm hmt.symm this.symm)
  rw [hEq]
  simp

/-- Witness for C2's amended theorem: the same two-note grid-aligned stream,
validated with error ratio 0. -/
theorem fresh_encode_validates_witness :
    tokensErrors cfg0
        (addTimeEvents cfg0 (tdOf cfg0 60)
          (eventsOfNotes (tdOf cfg0 60)
            [⟨60, 100, (1, 0, 8), 0⟩, ⟨64, 90, (2, 0, 4), 960⟩]))
      = some 0 :=
  fresh_encode_validates cfg0 60
    ⟨rfl, rfl, rfl, rfl, rfl, rfl, rfl, by decide, by decide⟩
    [⟨60, 100, (1, 0, 8), 0⟩, ⟨64, 90, (2, 0, 4), 960⟩]
    ⟨by decide, by
      rw [List.chain'_cons]
      exact ⟨by decide, List.chain'_singleton _⟩⟩
    (by
      rw [List.pairwise_cons]
      exact ⟨by decide, List.pairwise_singleton _ _⟩)
    (by decide)

/-- Counterexample to C2 as stated: two same-pitch notes at the same tick are
encoded faithfully, but the validator counts the second `Pitch` as a
duplicated pitch, so the fresh encoding scores ratio 1/4, not 0. -/
theorem duplicate_pitch_not_validated :
    tokensErrors cfg0
        (addTimeEvents cfg0 480
          (eventsOfNotes 480
            [⟨60, 100, (1, 0, 8), 0⟩, ⟨60, 90, (1, 0, 4), 0⟩]))
      ≠ some 0 := by
  have hv : valRun cfg0
      (addTimeEvents cfg0 480
        (eventsOfNotes 480
          [⟨60, 100, (1, 0, 8), 0⟩, ⟨60, 90, (1, 0, 4), 0⟩]))
      = some ⟨1, "Pitch", 0, 0, [(0, [60])]⟩ := by decide
  have hlen : (addTimeEvents cfg0 480
      (eventsOfNotes 480
        [⟨60, 100, (1, 0, 8), 0⟩, ⟨60, 90, (1, 0, 4), 0⟩])).length
      = 4 := by decide
  unfold tokensErrors
  rw [hv]
  simp only []
  rw [hlen]
  simp only [ne_eq, Option.some.injEq]
  norm_num

end CPWord
